import Mathlib

/-!
# Galton board on an SSD1306 display: a shallow embedding

The development follows `display_oled.c` (simulation, buttons, screens) and
`oled_driver.c` (framebuffer driver).

Modelling conventions.

* C `int` values are `Int`; `/` and `%` of C are `Int.tdiv` and `Int.tmod`
  (truncation toward zero).  The unsigned globals are `Nat` with an explicit
  reduction modulo `2 ^ w` at every store (`uint8_t`, `uint32_t`, `uint64_t`).
* `float y_pos` is an exact rational.  Every value the program stores there is
  `START_Y` plus a multiple of `VERTICAL_DEFLECTION`, or one of the clamp
  values `0` and `OLED_HEIGHT - 1`: small integers, on which single precision
  arithmetic is exact.  The cast `(int)(y + 0.5f)` truncates toward zero.
  On a height that is not a whole number the sums `y_pos + 0.5f` and
  `y_pos + deflection * VERTICAL_DEFLECTION` of the code are rounded to single
  precision and the rational ones are not: every statement about a height is
  made for whole rows (`on_row`), or over the runs from the initial state,
  whose heights are whole rows.
* A C array is a function from the index; the valid slots of `balls` are
  `0 .. MAX_BALLS - 1`, the valid rows of `stack_depth_at_y` are
  `0 .. OLED_HEIGHT - 1`.
* `ssd1306_width`, `ssd1306_height`, `ssd1306_buffer_length` and the table
  `font` come from headers of the base library and are parameters here.
* `rand()` reads the head of a stream of values and advances it; `time_us_64()`
  and `gpio_get(pin)` are arguments of the function that calls them.
-/

set_option maxRecDepth 100000

namespace Galton

/-! ## Constants of `display_oled.c` -/

def MAX_BALLS : Int := 50
def DEBOUNCE_DELAY_US : Int := 200 * 1000
def START_X : Int := 0
def VERTICAL_DEFLECTION : Int := 3
def PROBABILITY_POSITIVE_Y_DEFLECTION_PERCENT : Nat := 50
def PIN_START_X : Int := 10
def NUM_PIN_LEVELS : Int := 11
def PIN_X_INCREMENT : Int := 2

/-- Constants of the base library header `ssd1306_i2c.h`, which the driver
header turns into `OLED_WIDTH` and `OLED_HEIGHT`. -/
structure Geometry where
  ssd1306_width : Int
  ssd1306_height : Int
  ssd1306_buffer_length : Int

def OLED_WIDTH (g : Geometry) : Int := g.ssd1306_width
def OLED_HEIGHT (g : Geometry) : Int := g.ssd1306_height
def START_Y (g : Geometry) : Int := (OLED_HEIGHT g).tdiv 2
def FINAL_X (g : Geometry) : Int := OLED_WIDTH g - 1

/-- The usual 128 x 64 module: 8 pages of 128 bytes. -/
def ssd1306_128x64 : Geometry :=
  { ssd1306_width := 128, ssd1306_height := 64, ssd1306_buffer_length := 1024 }

/-- The 128 x 32 module: 4 pages of 128 bytes; `START_Y` is 16 on it. -/
def ssd1306_128x32 : Geometry :=
  { ssd1306_width := 128, ssd1306_height := 32, ssd1306_buffer_length := 512 }

/-! ## Data model -/

inductive ScreenState where
  | SCREEN_GAME
  | SCREEN_SCORE
  deriving DecidableEq, Repr

structure BallState where
  x_pos : Int
  y_pos : ℚ
  current_pin_level : Int
  active : Bool
  deriving DecidableEq

/-- The globals of `display_oled.c`, with the stream of values that the calls
of `rand()` still to come will return. -/
structure Sim where
  balls : Int → BallState
  ball_add_index : Int
  last_drop_button_press_time : Nat
  last_switch_button_press_time : Nat
  stack_depth_at_y : Int → Nat
  current_screen : ScreenState
  total_balls_dropped_count : Nat
  rand_stream : Nat → Nat

/-- Conversion of a float to `int`: the fractional part is discarded. -/
def float_to_int (q : ℚ) : Int := if 0 ≤ q then ⌊q⌋ else ⌈q⌉

/-- State of the globals when `main` enters its loop: static storage is zero,
`main` clears the tally and marks every slot inactive. -/
def initial_state (rs : Nat → Nat) : Sim :=
  { balls := fun _ => { x_pos := 0, y_pos := 0, current_pin_level := 0, active := false }
    ball_add_index := 0
    last_drop_button_press_time := 0
    last_switch_button_press_time := 0
    stack_depth_at_y := fun _ => 0
    current_screen := ScreenState.SCREEN_GAME
    total_balls_dropped_count := 0
    rand_stream := rs }

/-! ## Buttons -/

/-- Function `check_button_press`: `now` is the value of `time_us_64()`, `level`
the value of `gpio_get(pin)`, `last` the content of `*last_press_time`.  The
result is the returned flag and the new content of `*last_press_time`. -/
def check_button_press (now : Nat) (level : Bool) (last : Nat) : Bool × Nat :=
  if ((now : Int) - (last : Int)) % 2 ^ 64 > DEBOUNCE_DELAY_US then
    if !level then (true, now) else (false, last)
  else (false, last)

/-! ## Ball pool -/

/-- The search loop of `add_new_ball`, entered at loop counter `i` with `n`
iterations left; `-1` when the loop ends without a `break`. -/
def find_free_slot (s : Sim) (i : Nat) : Nat → Int
  | 0 => -1
  | n + 1 =>
    let check_idx := (s.ball_add_index + (i : Int)).tmod MAX_BALLS
    if !(s.balls check_idx).active then check_idx
    else find_free_slot s (i + 1) n

/-- The slot that `add_new_ball` writes. -/
def index_to_use (s : Sim) : Int :=
  let found := find_free_slot s 0 MAX_BALLS.toNat
  if found = -1 then s.ball_add_index else found

def add_new_ball (g : Geometry) (s : Sim) : Sim :=
  let idx := index_to_use s
  { s with
    balls := Function.update s.balls idx
      { x_pos := START_X, y_pos := (START_Y g : ℚ), current_pin_level := 0, active := true }
    ball_add_index := (idx + 1).tmod MAX_BALLS }

/-! ## Ball physics -/

/-- The draw of `update_ball_state`: `+1` (down) or `-1` (up) from the value
`r` returned by `rand()`. -/
def deflection (r : Nat) : Int :=
  if r % 100 < PROBABILITY_POSITIVE_Y_DEFLECTION_PERCENT then 1 else -1

/-- The two vertical guards of `update_ball_state`, in the order of the code. -/
def clamp_y (g : Geometry) (y : ℚ) : ℚ :=
  if (if y < 0 then 0 else y) ≥ (OLED_HEIGHT g : ℚ) then ((OLED_HEIGHT g - 1 : Int) : ℚ)
  else (if y < 0 then 0 else y)

/-- The pin block of `update_ball_state` (the `if` on `current_pin_level`),
applied to the ball after `x_pos += 1`; `r` is the value `rand()` returns if it
is called.  The result is the ball and whether `rand()` was called.  The sum
`y_pos + deflection * VERTICAL_DEFLECTION` is the exact one, which is the
single precision sum of the code when `y_pos` is a whole row. -/
def pin_step (g : Geometry) (ball : BallState) (r : Nat) : BallState × Bool :=
  if ball.current_pin_level < NUM_PIN_LEVELS then
    if ball.x_pos ≥ PIN_START_X + ball.current_pin_level * PIN_X_INCREMENT then
      ({ ball with
          y_pos := clamp_y g (ball.y_pos + ((deflection r * VERTICAL_DEFLECTION : Int) : ℚ))
          current_pin_level := ball.current_pin_level + 1 }, true)
    else (ball, false)
  else (ball, false)

/-- The row in which a ball at height `y` is tallied: `(int)(y + 0.5f)` with the
two guards on `final_y`.  The sum is the exact one, which is the single
precision sum of the code when `y` is a whole row. -/
def final_y (g : Geometry) (y : ℚ) : Int :=
  let f0 := float_to_int (y + 1 / 2)
  let f1 := if f0 < 0 then 0 else f0
  if f1 ≥ OLED_HEIGHT g then OLED_HEIGHT g - 1 else f1

/-- Function `update_ball_state` called on `&balls[i]`. -/
def update_ball_state (g : Geometry) (s : Sim) (i : Int) : Sim :=
  if !(s.balls i).active then s
  else
    let moved : BallState := { s.balls i with x_pos := (s.balls i).x_pos + 1 }
    let stepped := pin_step g moved (s.rand_stream 0)
    let ball := stepped.1
    let rs : Nat → Nat := if stepped.2 then fun n => s.rand_stream (n + 1) else s.rand_stream
    if ball.x_pos ≥ FINAL_X g then
      let row := final_y g ball.y_pos
      { s with
        balls := Function.update s.balls i { ball with x_pos := FINAL_X g, active := false }
        stack_depth_at_y :=
          if (s.stack_depth_at_y row : Int) < OLED_WIDTH g then
            Function.update s.stack_depth_at_y row ((s.stack_depth_at_y row + 1) % 256)
          else s.stack_depth_at_y
        total_balls_dropped_count := (s.total_balls_dropped_count + 1) % 2 ^ 32
        rand_stream := rs }
    else
      { s with balls := Function.update s.balls i ball, rand_stream := rs }

/-- Function `update_all_balls`: the slots in index order. -/
def update_all_balls (g : Geometry) (s : Sim) : Sim :=
  (List.range MAX_BALLS.toNat).foldl (fun t i => update_ball_state g t (i : Int)) s

/-! ## Framebuffer driver (`oled_driver.c`) -/

/-- The buffer `oled_buffer`: `none` is the null pointer, `some b` an allocated
buffer with byte `b i` at index `i`. -/
abbrev Buffer := Option (Int → Nat)

def _set_pixel_internal (g : Geometry) (buf : Buffer) (x y : Int) (set : Bool) : Buffer :=
  match buf with
  | none => none
  | some b =>
    if x < 0 ∨ x ≥ OLED_WIDTH g ∨ y < 0 ∨ y ≥ OLED_HEIGHT g then some b
    else if (y.tdiv 8) * OLED_WIDTH g + x ≥ g.ssd1306_buffer_length then some b
    else if set then
      some (Function.update b ((y.tdiv 8) * OLED_WIDTH g + x)
        ((b ((y.tdiv 8) * OLED_WIDTH g + x) ||| (2 ^ (y.tmod 8).toNat % 256)) % 256))
    else
      some (Function.update b ((y.tdiv 8) * OLED_WIDTH g + x)
        ((b ((y.tdiv 8) * OLED_WIDTH g + x) &&& (255 ^^^ (2 ^ (y.tmod 8).toNat % 256))) % 256))

def oled_set_pixel (g : Geometry) (oled_buffer : Buffer) (x y : Int) (set : Bool) : Buffer :=
  _set_pixel_internal g oled_buffer x y set

/-- Offset of the glyph of a character in the font table. -/
def _oled_get_font_char_offset (character : Char) : Int :=
  if 'A'.toNat ≤ character.toUpper.toNat ∧ character.toUpper.toNat ≤ 'Z'.toNat then
    ((character.toUpper.toNat : Int) - ('A'.toNat : Int) + 1) * 8
  else if '0'.toNat ≤ character.toUpper.toNat ∧ character.toUpper.toNat ≤ '9'.toNat then
    ((character.toUpper.toNat : Int) - ('0'.toNat : Int) + 27) * 8
  else if character.toUpper = ':' then 37 * 8
  else 0

/-- The copy loop of `oled_draw_char_page_aligned`, for the columns of the list. -/
def copy_glyph (g : Geometry) (font : Int → Nat) (page_idx x char_font_offset : Int)
    (cols : List Nat) (b : Int → Nat) : Int → Nat :=
  cols.foldl
    (fun acc i =>
      if page_idx * OLED_WIDTH g + (x + (i : Int)) < g.ssd1306_buffer_length then
        Function.update acc (page_idx * OLED_WIDTH g + (x + (i : Int)))
          (font (char_font_offset + (i : Int)))
      else acc)
    b

def oled_draw_char_page_aligned (g : Geometry) (font : Int → Nat) (oled_buffer : Buffer)
    (x y_page_aligned : Int) (character : Char) : Buffer :=
  match oled_buffer with
  | none => none
  | some b =>
    if x < 0 ∨ x > OLED_WIDTH g - 8 ∨ y_page_aligned < 0 ∨ y_page_aligned > OLED_HEIGHT g - 8 ∨
        y_page_aligned.tmod 8 ≠ 0 then some b
    else
      some (copy_glyph g font (y_page_aligned.tdiv 8) x (_oled_get_font_char_offset character)
        (List.range 8) b)

/-- Conversion of an `int` to `int16_t`. -/
def to_int16 (v : Int) : Int := (v + 32768) % 65536 - 32768

/-- The loop of `oled_draw_string`; the characters of the list are those before
the terminating zero of the C string. -/
def draw_string_loop (g : Geometry) (font : Int → Nat) (y_page_aligned : Int) :
    List Char → Int → Buffer → Buffer
  | [], _, buf => buf
  | c :: str, current_x, buf =>
    if c.toNat ≠ 0 ∧ current_x ≤ OLED_WIDTH g - 8 then
      draw_string_loop g font y_page_aligned str (to_int16 (current_x + 8))
        (oled_draw_char_page_aligned g font buf current_x y_page_aligned c)
    else buf

def oled_draw_string (g : Geometry) (font : Int → Nat) (oled_buffer : Buffer)
    (x y_page_aligned : Int) (str : List Char) : Buffer :=
  if oled_buffer.isNone ∨ y_page_aligned.tmod 8 ≠ 0 then oled_buffer
  else draw_string_loop g font y_page_aligned str x oled_buffer

/-! ## Runs of the simulation -/

/-- The two operations on the pool. -/
inductive Op where
  | spawn
  | tick_all
  deriving DecidableEq, Repr

def step (g : Geometry) (s : Sim) : Op → Sim
  | Op.spawn => add_new_ball g s
  | Op.tick_all => update_all_balls g s

/-- The state after the operations of the list, first to last. -/
def run (g : Geometry) (ops : List Op) (s : Sim) : Sim :=
  ops.foldl (step g) s

/-- Successive polls of one button: each element of the list is the clock
reading and the pin level of one call of `check_button_press`, `last` the
stored timestamp before the first call.  The result pairs the clock reading of
every poll with the flag it returned. -/
def poll_sequence : Nat → List (Nat × Bool) → List (Nat × Bool)
  | _, [] => []
  | last, (now, level) :: rest =>
    (now, (check_button_press now level last).1) ::
      poll_sequence (check_button_press now level last).2 rest

/-- Function `oled_clear_buffer`: `memset` of the `ssd1306_buffer_length`
bytes of the buffer. -/
def oled_clear_buffer (g : Geometry) (oled_buffer : Buffer) : Buffer :=
  match oled_buffer with
  | none => none
  | some b => some (fun i => if 0 ≤ i ∧ i < g.ssd1306_buffer_length then 0 else b i)

/-- The text that `snprintf(score_text, sizeof(score_text), "%lu", n)` leaves
in the 20-byte array `score_text`: the decimal digits of `n`, most significant
first, cut to 19 characters. -/
def score_text (n : Nat) : List Char :=
  (if n = 0 then ['0'] else (Nat.digits 10 n).reverse.map Nat.digitChar).take 19

/-- The local `x_pos` of `render_score_screen` for the count `n`. -/
def score_x_pos (g : Geometry) (n : Nat) : Int :=
  if (OLED_WIDTH g - ((score_text n).length : Int) * 8).tdiv 2 < 0 then 0
  else (OLED_WIDTH g - ((score_text n).length : Int) * 8).tdiv 2

/-- Function `render_score_screen`, up to the call of `oled_render`, which
sends the buffer to the display and changes nothing. -/
def render_score_screen (g : Geometry) (font : Int → Nat) (s : Sim) (oled_buffer : Buffer) :
    Buffer :=
  oled_draw_string g font
    (oled_draw_string g font (oled_clear_buffer g oled_buffer) 16 16
      ['T', 'O', 'T', 'A', 'L', ' '])
    (to_int16 (score_x_pos g s.total_balls_dropped_count)) 32
    (score_text s.total_balls_dropped_count)

/-- Function `oled_draw_vline`: the loop runs `y` from `y_start` to
`y_start + height - 1`, that is `height` times when `height` is positive and
not at all otherwise. -/
def oled_draw_vline (g : Geometry) (oled_buffer : Buffer) (x y_start height : Int)
    (set : Bool) : Buffer :=
  if x < 0 ∨ x ≥ OLED_WIDTH g then oled_buffer
  else
    (List.range height.toNat).foldl
      (fun (b : Buffer) (k : Nat) => _set_pixel_internal g b x (y_start + (k : Int)) set)
      oled_buffer

/-- Function `oled_draw_hline`: the loop runs `x` from `x_start` to
`x_start + width - 1`. -/
def oled_draw_hline (g : Geometry) (oled_buffer : Buffer) (x_start y width : Int)
    (set : Bool) : Buffer :=
  if y < 0 ∨ y ≥ OLED_HEIGHT g then oled_buffer
  else
    (List.range width.toNat).foldl
      (fun (b : Buffer) (k : Nat) => _set_pixel_internal g b (x_start + (k : Int)) y set)
      oled_buffer

/-- The inner loop of `render_galton_board` for the row `y`, entered at loop
counter `h` with `r` iterations left before `h` reaches `stack_depth_at_y[y]`;
the `break` leaves the loop at the first column left of the display. -/
def stack_row_loop (g : Geometry) (y : Int) : Nat → Nat → Buffer → Buffer
  | 0, _, buf => buf
  | r + 1, h, buf =>
    if (OLED_WIDTH g - 1) - (h : Int) ≥ 0 then
      stack_row_loop g y r (h + 1) (oled_set_pixel g buf ((OLED_WIDTH g - 1) - (h : Int)) y true)
    else buf

/-- The body of the second loop of `render_galton_board` for slot `i`.  The
sum in `y_render` is the exact one, which is the single precision sum of the
code when `y_pos` is a whole row. -/
def draw_ball (g : Geometry) (s : Sim) (buf : Buffer) (i : Int) : Buffer :=
  if (s.balls i).active then
    if (s.balls i).x_pos ≥ 0 ∧ (s.balls i).x_pos < OLED_WIDTH g ∧
        float_to_int ((s.balls i).y_pos + 1 / 2) ≥ 0 ∧
        float_to_int ((s.balls i).y_pos + 1 / 2) < OLED_HEIGHT g then
      oled_set_pixel g buf (s.balls i).x_pos (float_to_int ((s.balls i).y_pos + 1 / 2)) true
    else buf
  else buf

/-- Function `render_galton_board`, up to the call of `oled_render`. -/
def render_galton_board (g : Geometry) (s : Sim) (oled_buffer : Buffer) : Buffer :=
  (List.range MAX_BALLS.toNat).foldl (fun (b : Buffer) (i : Nat) => draw_ball g s b (i : Int))
    ((List.range (OLED_HEIGHT g).toNat).foldl
      (fun (b : Buffer) (y : Nat) =>
        stack_row_loop g (y : Int) (s.stack_depth_at_y (y : Int)) 0 b)
      (oled_clear_buffer g oled_buffer))

/-- The first statement of the loop of `main`: the poll of the switch button
at clock reading `now` with pin level `level`, and the toggle of the screen. -/
def poll_switch_button (now : Nat) (level : Bool) (s : Sim) : Sim :=
  { s with
    last_switch_button_press_time :=
      (check_button_press now level s.last_switch_button_press_time).2
    current_screen :=
      if (check_button_press now level s.last_switch_button_press_time).1 then
        (if s.current_screen = ScreenState.SCREEN_GAME then ScreenState.SCREEN_SCORE
         else ScreenState.SCREEN_GAME)
      else s.current_screen }

/-- The poll of the drop button in the game branch, with the spawn it triggers. -/
def poll_drop_button (g : Geometry) (now : Nat) (level : Bool) (s : Sim) : Sim :=
  if (check_button_press now level s.last_drop_button_press_time).1 then
    add_new_ball g
      { s with last_drop_button_press_time :=
          (check_button_press now level s.last_drop_button_press_time).2 }
  else
    { s with last_drop_button_press_time :=
        (check_button_press now level s.last_drop_button_press_time).2 }

/-- One iteration of the loop of `main`, up to `sleep_ms`: the globals and the
buffer after it.  The clock readings and pin levels are those the two polls
would see; the drop button is polled in the game branch only. -/
def main_loop_iteration (g : Geometry) (font : Int → Nat)
    (now_switch : Nat) (switch_level : Bool) (now_drop : Nat) (drop_level : Bool)
    (s : Sim) (oled_buffer : Buffer) : Sim × Buffer :=
  if (poll_switch_button now_switch switch_level s).current_screen = ScreenState.SCREEN_GAME then
    (update_all_balls g (poll_drop_button g now_drop drop_level
        (poll_switch_button now_switch switch_level s)),
      render_galton_board g
        (update_all_balls g (poll_drop_button g now_drop drop_level
          (poll_switch_button now_switch switch_level s))) oled_buffer)
  else
    (poll_switch_button now_switch switch_level s,
      render_score_screen g font (poll_switch_button now_switch switch_level s) oled_buffer)

/-! ## Predicates and observers used in the statements -/

/-- Height of a ball that is an integer row of the display. -/
def on_row (g : Geometry) (y : ℚ) : Prop :=
  ∃ k : Int, y = (k : ℚ) ∧ 0 ≤ k ∧ k ≤ OLED_HEIGHT g - 1

/-- The ball of slot `i` after `x_pos += 1` and the pin block. -/
def after_pin (g : Geometry) (s : Sim) (i : Int) : BallState :=
  (pin_step g { s.balls i with x_pos := (s.balls i).x_pos + 1 } (s.rand_stream 0)).1

/-- Every active ball is on a column `0 .. FINAL_X` and on an integer row. -/
def balls_in_bounds (g : Geometry) (s : Sim) : Prop :=
  ∀ i : Int, (s.balls i).active = true →
    0 ≤ (s.balls i).x_pos ∧ (s.balls i).x_pos ≤ FINAL_X g ∧ on_row g (s.balls i).y_pos

/-- A state with 128 balls landed in row 35 of the 128 x 64 display, which
fills that row, and one more ball about to land there. -/
def full_row_state : Sim :=
  { initial_state (fun _ => 0) with
    balls := Function.update (initial_state (fun _ => 0)).balls 0
      { x_pos := 126, y_pos := 35, current_pin_level := 11, active := true }
    ball_add_index := 1
    stack_depth_at_y := fun y => if y = 35 then 128 else 0
    total_balls_dropped_count := 128 }

/-- Sum of the Landing Tally over the rows of the display. -/
def tally_sum (g : Geometry) (s : Sim) : Nat :=
  ∑ y in Finset.range (OLED_HEIGHT g).toNat, s.stack_depth_at_y (y : Int)

/-- Whether the tick of slot `i` is a landing on a row whose tally already
equals `OLED_WIDTH` (1) or not (0). -/
def landing_dropped (g : Geometry) (s : Sim) (i : Int) : Nat :=
  if (s.balls i).active = true ∧ ((update_ball_state g s i).balls i).active = false ∧
      (s.stack_depth_at_y (final_y g ((update_ball_state g s i).balls i).y_pos) : Int)
        = OLED_WIDTH g
  then 1 else 0

/-- Number of landings on a saturated row while the slots of the list are
ticked in order. -/
def dropped_in_ticks (g : Geometry) : List Nat → Sim → Nat
  | [], _ => 0
  | i :: l, s => landing_dropped g s (i : Int) + dropped_in_ticks g l (update_ball_state g s (i : Int))

/-- Number of landings on a saturated row during a run. -/
def dropped (g : Geometry) : List Op → Sim → Nat
  | [], _ => 0
  | Op.spawn :: ops, s => dropped g ops (add_new_ball g s)
  | Op.tick_all :: ops, s =>
    dropped_in_ticks g (List.range MAX_BALLS.toNat) s + dropped g ops (update_all_balls g s)

/-- The tally, the counter and the number `d` of dropped increments agree, and
no row exceeds the width. -/
def tally_ok (g : Geometry) (s : Sim) (d : Nat) : Prop :=
  (tally_sum g s + d) % 2 ^ 32 = s.total_balls_dropped_count ∧
  ∀ row : Int, (s.stack_depth_at_y row : Int) ≤ OLED_WIDTH g

/-- The cursor is a valid slot index. -/
def cursor_ok (s : Sim) : Prop := 0 ≤ s.ball_add_index ∧ s.ball_add_index < MAX_BALLS

/-- Number of active slots of the pool. -/
def active_count (s : Sim) : Nat :=
  ((Finset.range MAX_BALLS.toNat).filter (fun i : Nat => (s.balls (i : Int)).active = true)).card

/-- No row of the tally exceeds the width of the display. -/
def tally_le (g : Geometry) (s : Sim) : Prop :=
  ∀ row : Int, (s.stack_depth_at_y row : Int) ≤ OLED_WIDTH g

/-- No spawn of the run chooses slot `i`. -/
def not_overwritten (g : Geometry) (i : Int) : List Op → Sim → Prop
  | [], _ => True
  | Op.spawn :: ops, s => index_to_use s ≠ i ∧ not_overwritten g i ops (add_new_ball g s)
  | Op.tick_all :: ops, s => not_overwritten g i ops (update_all_balls g s)

/-- Number of the pin columns `PIN_START_X + n * PIN_X_INCREMENT`,
`n < NUM_PIN_LEVELS`, that are at most `k`. -/
def pins_passed (k : Int) : Int :=
  if k < PIN_START_X then 0
  else if k ≥ PIN_START_X + NUM_PIN_LEVELS * PIN_X_INCREMENT then NUM_PIN_LEVELS
  else (k - PIN_START_X) / PIN_X_INCREMENT + 1

/-- The ball of a slot `k` ticks after its spawn: in flight at column `k` with
the pins up to that column passed, or landed. -/
def on_track (g : Geometry) (k : Nat) (b : BallState) : Prop :=
  if (k : Int) < FINAL_X g then
    b.active = true ∧ b.x_pos = (k : Int) ∧ b.current_pin_level = pins_passed (k : Int)
  else
    b.active = false ∧ b.x_pos = FINAL_X g ∧ b.current_pin_level = NUM_PIN_LEVELS

/-- Every value the random stream still holds gives a positive deflection. -/
def all_draws_positive (s : Sim) : Prop :=
  ∀ n : Nat, s.rand_stream n % 100 < PROBABILITY_POSITIVE_Y_DEFLECTION_PERCENT

/-- Height of a ball that started at `y0` after `n` positive deflections, each
followed by the vertical guards. -/
def y_down (g : Geometry) (y0 : ℚ) : Nat → ℚ
  | 0 => y0
  | n + 1 => clamp_y g (y_down g y0 n + (((1 : Int) * VERTICAL_DEFLECTION : Int) : ℚ))

/-- The row reached from height 16 by 11 positive deflections of 3. -/
def down_row (g : Geometry) : Int :=
  if 50 ≤ OLED_HEIGHT g then 16 + 11 * 3 else OLED_HEIGHT g - 1

/-- The ball of a slot `k` ticks after it was at column 0, height 16, level 0,
when every draw was positive. -/
def on_track_down (g : Geometry) (k : Nat) (b : BallState) : Prop :=
  on_track g k b ∧ b.y_pos = y_down g 16 b.current_pin_level.toNat

/-- A coordinate of the display. -/
def on_screen (g : Geometry) (x y : Int) : Prop :=
  0 ≤ x ∧ x < OLED_WIDTH g ∧ 0 ≤ y ∧ y < OLED_HEIGHT g

/-- The pixel `(x, y)` of a buffer: bit `y mod 8` of the byte of column `x` in
page `y / 8`; dark when there is no buffer. -/
def pixel (g : Geometry) (buf : Buffer) (x y : Int) : Bool :=
  match buf with
  | none => false
  | some b => (b (y / 8 * OLED_WIDTH g + x)).testBit (y % 8).toNat

/-- An allocated buffer whose entries are bytes. -/
def buffer_ok (buf : Buffer) : Prop :=
  ∃ b : Int → Nat, buf = some b ∧ ∀ i : Int, b i < 256

/-- The display is a whole number of pages and the buffer holds one byte per
column and page. -/
def page_geometry (g : Geometry) : Prop :=
  (8 : Int) ∣ OLED_HEIGHT g ∧
  g.ssd1306_buffer_length = (OLED_WIDTH g * OLED_HEIGHT g).tdiv 8

/-- The buffer `buf'` is `buf` with the pixels of `S` given the value `v` and
every other pixel of the display kept. -/
def sets_to (g : Geometry) (v : Bool) (buf buf' : Buffer) (S : Int → Int → Prop) : Prop :=
  buffer_ok buf' ∧
  ∀ px py : Int, on_screen g px py →
    (S px py → pixel g buf' px py = v) ∧ (¬ S px py → pixel g buf' px py = pixel g buf px py)

/-- Length of the C string held by a list of characters: the characters before
the first zero. -/
def c_strlen (str : List Char) : Nat :=
  (str.takeWhile (fun c => decide (c.toNat ≠ 0))).length

/-- On the 128 x 32 display, where `START_Y` is 16: 128 balls have landed in
row 31, the row every ball reaches when all draws are positive, and one more
ball, past its 11 pins, is about to land there. -/
def full_row_state_32 : Sim :=
  { initial_state (fun _ => 7) with
    balls := Function.update (initial_state (fun _ => 7)).balls 0
      { x_pos := 126, y_pos := 31, current_pin_level := 11, active := true }
    ball_add_index := 1
    stack_depth_at_y := fun y => if y = 31 then 128 else 0
    total_balls_dropped_count := 128 }

/-! ## One tick of one slot -/

theorem pin_step_x_pos (g : Geometry) (b : BallState) (r : Nat) :
    (pin_step g b r).1.x_pos = b.x_pos := by
  unfold pin_step
  split_ifs <;> rfl

theorem pin_step_active (g : Geometry) (b : BallState) (r : Nat) :
    (pin_step g b r).1.active = b.active := by
  unfold pin_step
  split_ifs <;> rfl

theorem pin_step_level (g : Geometry) (b : BallState) (r : Nat) :
    b.current_pin_level ≤ (pin_step g b r).1.current_pin_level ∧
    (pin_step g b r).1.current_pin_level ≤ b.current_pin_level + 1 ∧
    (b.current_pin_level ≤ NUM_PIN_LEVELS →
      (pin_step g b r).1.current_pin_level ≤ NUM_PIN_LEVELS) := by
  unfold pin_step
  split_ifs
  all_goals simp
  all_goals omega

theorem clamp_y_on_row (g : Geometry) (hH : 1 ≤ OLED_HEIGHT g) (k : Int) :
    on_row g (clamp_y g (k : ℚ)) := by
  unfold clamp_y
  by_cases h0 : ((k : ℚ) < 0)
  · simp only [h0, if_true]
    have hH' : ¬ ((0 : ℚ) ≥ (OLED_HEIGHT g : ℚ)) := by
      have : (1 : ℚ) ≤ (OLED_HEIGHT g : ℚ) := by exact_mod_cast hH
      intro h; linarith
    rw [if_neg hH']
    exact ⟨0, by simp, le_refl _, by omega⟩
  · simp only [h0, if_false]
    have hk0 : 0 ≤ k := by
      have : (0 : ℚ) ≤ (k : ℚ) := not_lt.mp h0
      exact_mod_cast this
    by_cases h1 : ((k : ℚ) ≥ (OLED_HEIGHT g : ℚ))
    · rw [if_pos h1]
      exact ⟨OLED_HEIGHT g - 1, rfl, by omega, le_refl _⟩
    · rw [if_neg h1]
      have : k < OLED_HEIGHT g := by
        have : (k : ℚ) < (OLED_HEIGHT g : ℚ) := not_le.mp h1
        exact_mod_cast this
      exact ⟨k, rfl, hk0, by omega⟩

theorem pin_step_on_row (g : Geometry) (b : BallState) (r : Nat)
    (hH : 1 ≤ OLED_HEIGHT g) (hb : on_row g b.y_pos) :
    on_row g (pin_step g b r).1.y_pos := by
  obtain ⟨k, hk, hk0, hk1⟩ := hb
  unfold pin_step
  split_ifs
  · simp only [hk]
    have := clamp_y_on_row g hH (k + deflection r * VERTICAL_DEFLECTION)
    push_cast at this ⊢
    exact this
  · exact ⟨k, hk, hk0, hk1⟩
  · exact ⟨k, hk, hk0, hk1⟩

theorem after_pin_x_pos (g : Geometry) (s : Sim) (i : Int) :
    (after_pin g s i).x_pos = (s.balls i).x_pos + 1 := by
  unfold after_pin
  rw [pin_step_x_pos]

theorem update_ball_state_inactive (g : Geometry) (s : Sim) (i : Int)
    (h : (s.balls i).active = false) : update_ball_state g s i = s := by
  unfold update_ball_state
  simp [h]

theorem update_ball_state_balls_ne (g : Geometry) (s : Sim) (i j : Int) (h : j ≠ i) :
    (update_ball_state g s i).balls j = s.balls j := by
  unfold update_ball_state
  dsimp only
  split_ifs <;> simp [Function.update_noteq h]

theorem update_ball_state_fly (g : Geometry) (s : Sim) (i : Int)
    (ha : (s.balls i).active = true) (hx : (s.balls i).x_pos + 1 < FINAL_X g) :
    (update_ball_state g s i).balls i = after_pin g s i ∧
    (update_ball_state g s i).stack_depth_at_y = s.stack_depth_at_y ∧
    (update_ball_state g s i).total_balls_dropped_count = s.total_balls_dropped_count ∧
    (update_ball_state g s i).ball_add_index = s.ball_add_index := by
  have hc : ¬ ((s.balls i).x_pos + 1 ≥ FINAL_X g) := by omega
  have hn : ¬ ((!(s.balls i).active) = true) := by simp [ha]
  unfold update_ball_state after_pin
  dsimp only
  rw [if_neg hn]
  simp only [pin_step_x_pos, hc, if_false]
  simp

theorem update_ball_state_land (g : Geometry) (s : Sim) (i : Int)
    (ha : (s.balls i).active = true) (hx : FINAL_X g ≤ (s.balls i).x_pos + 1) :
    (update_ball_state g s i).balls i =
      { after_pin g s i with x_pos := FINAL_X g, active := false } ∧
    (update_ball_state g s i).stack_depth_at_y =
      (if (s.stack_depth_at_y (final_y g (after_pin g s i).y_pos) : Int) < OLED_WIDTH g then
        Function.update s.stack_depth_at_y (final_y g (after_pin g s i).y_pos)
          ((s.stack_depth_at_y (final_y g (after_pin g s i).y_pos) + 1) % 256)
      else s.stack_depth_at_y) ∧
    (update_ball_state g s i).total_balls_dropped_count =
      (s.total_balls_dropped_count + 1) % 2 ^ 32 ∧
    (update_ball_state g s i).ball_add_index = s.ball_add_index := by
  have hc : (s.balls i).x_pos + 1 ≥ FINAL_X g := hx
  have hn : ¬ ((!(s.balls i).active) = true) := by simp [ha]
  unfold update_ball_state after_pin
  dsimp only
  rw [if_neg hn]
  simp only [pin_step_x_pos, hc, if_true]
  simp

theorem update_ball_state_ball_add_index (g : Geometry) (s : Sim) (i : Int) :
    (update_ball_state g s i).ball_add_index = s.ball_add_index := by
  unfold update_ball_state
  dsimp only
  split_ifs <;> rfl

/-- A property kept by the tick of every slot is kept by `update_all_balls`. -/
theorem update_all_balls_induct (g : Geometry) (P : Sim → Prop)
    (hP : ∀ s i, P s → P (update_ball_state g s i)) (s : Sim) (hs : P s) :
    P (update_all_balls g s) := by
  unfold update_all_balls
  generalize List.range MAX_BALLS.toNat = l
  induction l generalizing s with
  | nil => exact hs
  | cons a l ih => exact ih _ (hP s a hs)

/-- A property kept by both operations is kept by every run. -/
theorem run_induct (g : Geometry) (P : Sim → Prop)
    (hspawn : ∀ s, P s → P (add_new_ball g s))
    (htick : ∀ s i, P s → P (update_ball_state g s i))
    (ops : List Op) (s : Sim) (hs : P s) : P (run g ops s) := by
  unfold run
  induction ops generalizing s with
  | nil => exact hs
  | cons op ops ih =>
    apply ih
    cases op with
    | spawn => exact hspawn s hs
    | tick_all => exact update_all_balls_induct g P htick s hs

/-! ## Position invariant -/

theorem balls_in_bounds_initial (g : Geometry) (rs : Nat → Nat) :
    balls_in_bounds g (initial_state rs) := by
  intro i h
  simp [initial_state] at h

theorem START_Y_on_row (g : Geometry) (hH : 1 ≤ OLED_HEIGHT g) :
    on_row g (START_Y g : ℚ) := by
  have h : START_Y g = OLED_HEIGHT g / 2 := by
    unfold START_Y
    exact Int.tdiv_eq_ediv (by omega) (by omega)
  exact ⟨START_Y g, rfl, by omega, by omega⟩

theorem balls_in_bounds_spawn (g : Geometry) (hW : 1 ≤ OLED_WIDTH g) (hH : 1 ≤ OLED_HEIGHT g)
    (s : Sim) (hs : balls_in_bounds g s) : balls_in_bounds g (add_new_ball g s) := by
  intro j hj
  by_cases hji : j = index_to_use s
  · subst hji
    simp only [add_new_ball, Function.update_same]
    refine ⟨by simp [START_X], by simp [START_X, FINAL_X]; omega, START_Y_on_row g hH⟩
  · simp only [add_new_ball, Function.update_noteq hji] at hj ⊢
    exact hs j hj

theorem balls_in_bounds_tick (g : Geometry) (hH : 1 ≤ OLED_HEIGHT g)
    (s : Sim) (i : Int) (hs : balls_in_bounds g s) :
    balls_in_bounds g (update_ball_state g s i) := by
  intro j hj
  by_cases hji : j = i
  · subst hji
    cases ha : (s.balls j).active with
    | false =>
      rw [update_ball_state_inactive g s j ha] at hj ⊢
      exact hs j hj
    | true =>
      obtain ⟨hx0, _, hy⟩ := hs j ha
      by_cases hx : (s.balls j).x_pos + 1 < FINAL_X g
      · rw [(update_ball_state_fly g s j ha hx).1]
        refine ⟨?_, ?_, ?_⟩
        · rw [after_pin_x_pos]; omega
        · rw [after_pin_x_pos]; omega
        · exact pin_step_on_row g _ _ hH hy
      · rw [(update_ball_state_land g s j ha (by omega)).1] at hj
        simp at hj
  · rw [update_ball_state_balls_ne g s i j hji] at hj ⊢
    exact hs j hj

theorem after_pin_level (g : Geometry) (s : Sim) (i : Int) :
    (s.balls i).current_pin_level ≤ (after_pin g s i).current_pin_level ∧
    (after_pin g s i).current_pin_level ≤ (s.balls i).current_pin_level + 1 ∧
    ((s.balls i).current_pin_level ≤ NUM_PIN_LEVELS →
      (after_pin g s i).current_pin_level ≤ NUM_PIN_LEVELS) :=
  pin_step_level g { s.balls i with x_pos := (s.balls i).x_pos + 1 } (s.rand_stream 0)

/-- The pin level of slot `i` after its tick is the one left by the pin block,
or the old one when the slot is inactive. -/
theorem update_ball_state_level (g : Geometry) (s : Sim) (i : Int) :
    ((update_ball_state g s i).balls i).current_pin_level =
      (if (s.balls i).active then (after_pin g s i).current_pin_level
       else (s.balls i).current_pin_level) := by
  cases ha : (s.balls i).active with
  | false => rw [update_ball_state_inactive g s i ha]; simp
  | true =>
    by_cases hx : (s.balls i).x_pos + 1 < FINAL_X g
    · rw [(update_ball_state_fly g s i ha hx).1]; simp
    · rw [(update_ball_state_land g s i ha (by omega)).1]; simp

/-- C1: in every state reached from the initial state by spawns and ticks of
the whole pool, for every stream of random values, an active ball has
`0 ≤ x_pos ≤ FINAL_X` and `0 ≤ y_pos ≤ OLED_HEIGHT - 1` (on a display of at
least one column and one row). -/
theorem C1_active_ball_in_bounds (g : Geometry)
    (hW : 1 ≤ OLED_WIDTH g) (hH : 1 ≤ OLED_HEIGHT g)
    (rs : Nat → Nat) (ops : List Op) (i : Int)
    (ha : ((run g ops (initial_state rs)).balls i).active = true) :
    0 ≤ ((run g ops (initial_state rs)).balls i).x_pos ∧
    ((run g ops (initial_state rs)).balls i).x_pos ≤ FINAL_X g ∧
    0 ≤ ((run g ops (initial_state rs)).balls i).y_pos ∧
    ((run g ops (initial_state rs)).balls i).y_pos ≤ ((OLED_HEIGHT g - 1 : Int) : ℚ) := by
  have hinv : balls_in_bounds g (run g ops (initial_state rs)) :=
    run_induct g (balls_in_bounds g) (balls_in_bounds_spawn g hW hH)
      (fun s i => balls_in_bounds_tick g hH s i) ops _ (balls_in_bounds_initial g rs)
  obtain ⟨hx0, hx1, k, hk, hk0, hk1⟩ := hinv i ha
  refine ⟨hx0, hx1, ?_, ?_⟩
  · rw [hk]; exact_mod_cast hk0
  · rw [hk]; exact_mod_cast hk1

theorem C1_active_ball_in_bounds_witness :
    0 ≤ ((run ssd1306_128x64 [Op.spawn, Op.tick_all] (initial_state (fun _ => 7))).balls 0).x_pos ∧
    ((run ssd1306_128x64 [Op.spawn, Op.tick_all] (initial_state (fun _ => 7))).balls 0).x_pos
      ≤ FINAL_X ssd1306_128x64 ∧
    0 ≤ ((run ssd1306_128x64 [Op.spawn, Op.tick_all] (initial_state (fun _ => 7))).balls 0).y_pos ∧
    ((run ssd1306_128x64 [Op.spawn, Op.tick_all] (initial_state (fun _ => 7))).balls 0).y_pos
      ≤ ((OLED_HEIGHT ssd1306_128x64 - 1 : Int) : ℚ) :=
  C1_active_ball_in_bounds ssd1306_128x64 (by decide) (by decide) (fun _ => 7)
    [Op.spawn, Op.tick_all] 0 (by decide)

/-- C2: one tick of a slot never lowers `current_pin_level`, raises it by at
most one, and keeps it at most `NUM_PIN_LEVELS` when it was so before, for
every state and every value of the random draw. -/
theorem C2_pin_level_monotone_bounded (g : Geometry) (s : Sim) (i : Int) :
    (s.balls i).current_pin_level ≤ ((update_ball_state g s i).balls i).current_pin_level ∧
    ((update_ball_state g s i).balls i).current_pin_level ≤ (s.balls i).current_pin_level + 1 ∧
    ((s.balls i).current_pin_level ≤ NUM_PIN_LEVELS →
      ((update_ball_state g s i).balls i).current_pin_level ≤ NUM_PIN_LEVELS) := by
  rw [update_ball_state_level]
  have h := after_pin_level g s i
  split_ifs
  · exact h
  · exact ⟨le_refl _, by omega, fun h => h⟩

/-! ## Landing row -/

theorem float_to_int_half (k : Int) (hk : 0 ≤ k) : float_to_int ((k : ℚ) + 1 / 2) = k := by
  unfold float_to_int
  have h0 : (0 : ℚ) ≤ (k : ℚ) + 1 / 2 := by
    have : (0 : ℚ) ≤ (k : ℚ) := by exact_mod_cast hk
    linarith
  rw [if_pos h0, Int.floor_eq_iff]
  constructor <;> linarith

theorem final_y_on_row (g : Geometry) (y : ℚ) (hy : on_row g y) :
    (final_y g y : ℚ) = y := by
  obtain ⟨k, hk, hk0, hk1⟩ := hy
  subst hk
  unfold final_y
  simp only [float_to_int_half k hk0]
  rw [if_neg (by omega), if_neg (by omega)]

theorem final_y_range (g : Geometry) (hH : 1 ≤ OLED_HEIGHT g) (y : ℚ) :
    0 ≤ final_y g y ∧ final_y g y < OLED_HEIGHT g := by
  unfold final_y
  dsimp only
  split_ifs <;> omega

/-- C3, as stated, fails: the ball of slot 0 of `full_row_state` goes from
active to inactive in its tick and no tally row is incremented. -/
theorem C3_counterexample :
    (full_row_state.balls 0).active = true ∧
    ((update_ball_state ssd1306_128x64 full_row_state 0).balls 0).active = false ∧
    ¬ ∃ row : Int,
      (update_ball_state ssd1306_128x64 full_row_state 0).stack_depth_at_y row =
        full_row_state.stack_depth_at_y row + 1 := by
  have ha : (full_row_state.balls 0).active = true := by decide
  have hx : FINAL_X ssd1306_128x64 ≤ (full_row_state.balls 0).x_pos + 1 := by decide
  obtain ⟨hb, ht, _, _⟩ := update_ball_state_land ssd1306_128x64 full_row_state 0 ha hx
  have hy : (after_pin ssd1306_128x64 full_row_state 0).y_pos = 35 := by
    simp [after_pin, pin_step, full_row_state, NUM_PIN_LEVELS]
  have hrow : final_y ssd1306_128x64 (35 : ℚ) = 35 := by
    have := final_y_on_row ssd1306_128x64 (35 : ℚ) ⟨35, by norm_num, by decide, by decide⟩
    exact_mod_cast this
  rw [hy, hrow] at ht
  have hsat : ¬ ((full_row_state.stack_depth_at_y 35 : Int) < OLED_WIDTH ssd1306_128x64) := by
    decide
  rw [if_neg hsat] at ht
  refine ⟨ha, by rw [hb], ?_⟩
  rintro ⟨row, hrow⟩
  rw [ht] at hrow
  omega

theorem on_row_nonneg (g : Geometry) (y : ℚ) (hy : on_row g y) : 0 ≤ y := by
  obtain ⟨k, hk, hk0, _⟩ := hy
  rw [hk]
  exact_mod_cast hk0

theorem full_row_state_on_row :
    ∀ i : Int, (full_row_state.balls i).active = true →
      on_row ssd1306_128x64 (full_row_state.balls i).y_pos := by
  intro i h
  by_cases hi : i = 0
  · subst hi
    refine ⟨35, ?_, by decide, by decide⟩
    simp [full_row_state]
  · simp [full_row_state, initial_state, Function.update_noteq hi] at h

/-- C3 (amended): for a ball whose height is a whole row of the display, as it
is in every state a run reaches, a tick of its slot `i` in which it goes from
active to inactive adds one to the Total-Dropped Counter; the ball then rests
at a whole row `row` of the display and, when the tally of that row is below
`OLED_WIDTH`, the tick adds one to that row and changes no other row; when
that row is saturated the tally is unchanged.  A tick without that transition
changes neither the tally nor the counter.  The width fits the 8-bit entries
and the counter does not overflow. -/
theorem C3_tally_per_landing (g : Geometry) (s : Sim) (i : Int)
    (hW : OLED_WIDTH g ≤ 255) (hH : 1 ≤ OLED_HEIGHT g)
    (hc : s.total_balls_dropped_count + 1 < 2 ^ 32)
    (hrow : (s.balls i).active = true → on_row g (s.balls i).y_pos) :
    (((s.balls i).active = true ∧ ((update_ball_state g s i).balls i).active = false) →
      (update_ball_state g s i).total_balls_dropped_count = s.total_balls_dropped_count + 1 ∧
      ∃ row : Int,
        ((update_ball_state g s i).balls i).y_pos = (row : ℚ) ∧
        0 ≤ row ∧ row ≤ OLED_HEIGHT g - 1 ∧
        ((s.stack_depth_at_y row : Int) < OLED_WIDTH g →
          (update_ball_state g s i).stack_depth_at_y =
            Function.update s.stack_depth_at_y row (s.stack_depth_at_y row + 1)) ∧
        (¬ (s.stack_depth_at_y row : Int) < OLED_WIDTH g →
          (update_ball_state g s i).stack_depth_at_y = s.stack_depth_at_y)) ∧
    (¬ ((s.balls i).active = true ∧ ((update_ball_state g s i).balls i).active = false) →
      (update_ball_state g s i).stack_depth_at_y = s.stack_depth_at_y ∧
      (update_ball_state g s i).total_balls_dropped_count = s.total_balls_dropped_count) := by
  cases ha : (s.balls i).active with
  | false =>
    rw [update_ball_state_inactive g s i ha]
    simp [ha]
  | true =>
    by_cases hx : (s.balls i).x_pos + 1 < FINAL_X g
    · obtain ⟨hb, ht, hn, _⟩ := update_ball_state_fly g s i ha hx
      have hact : ((update_ball_state g s i).balls i).active = true := by
        rw [hb]; unfold after_pin; rw [pin_step_active]; exact ha
      constructor
      · rintro ⟨_, h⟩
        rw [hact] at h
        exact absurd h (by simp)
      · intro _
        exact ⟨ht, hn⟩
    · obtain ⟨hb, ht, hn, _⟩ := update_ball_state_land g s i ha (by omega)
      have hy : ((update_ball_state g s i).balls i).y_pos = (after_pin g s i).y_pos := by
        rw [hb]
      have hon : on_row g (after_pin g s i).y_pos :=
        pin_step_on_row g _ _ hH (hrow ha)
      obtain ⟨k, hk, hk0, hk1⟩ := hon
      have hfy : final_y g (after_pin g s i).y_pos = k := by
        have h := final_y_on_row g (after_pin g s i).y_pos ⟨k, hk, hk0, hk1⟩
        rw [hk] at h ⊢
        exact_mod_cast h
      rw [hfy] at ht
      constructor
      · intro _
        refine ⟨?_, k, by rw [hy, hk], hk0, hk1, ?_, ?_⟩
        · rw [hn]; exact Nat.mod_eq_of_lt hc
        · intro hlt
          rw [ht, if_pos hlt]
          have : s.stack_depth_at_y k + 1 < 256 := by omega
          rw [Nat.mod_eq_of_lt this]
        · intro hge
          rw [ht, if_neg hge]
      · intro h
        exfalso
        apply h
        refine ⟨rfl, ?_⟩
        rw [hb]

theorem C3_tally_per_landing_witness :
    OLED_WIDTH ssd1306_128x64 ≤ 255 ∧ 1 ≤ OLED_HEIGHT ssd1306_128x64 ∧
    full_row_state.total_balls_dropped_count + 1 < 2 ^ 32 ∧
    on_row ssd1306_128x64 (full_row_state.balls 0).y_pos ∧
    (update_ball_state ssd1306_128x64 full_row_state 0).total_balls_dropped_count = 129 :=
  ⟨by decide, by decide, by decide, full_row_state_on_row 0 (by decide),
    ((C3_tally_per_landing ssd1306_128x64 full_row_state 0 (by decide) (by decide) (by decide)
      (full_row_state_on_row 0)).1 ⟨by decide, by decide⟩).1⟩

/-! ## Tally and counter -/

theorem tally_sum_update (g : Geometry) (s : Sim) (row : Int) (v : Nat)
    (h0 : 0 ≤ row) (h1 : row < OLED_HEIGHT g) (t : Sim)
    (ht : t.stack_depth_at_y = Function.update s.stack_depth_at_y row v) :
    tally_sum g t + s.stack_depth_at_y row = tally_sum g s + v := by
  unfold tally_sum
  rw [ht]
  have hmem : row.toNat ∈ Finset.range (OLED_HEIGHT g).toNat := by
    simp only [Finset.mem_range]; omega
  rw [← Finset.add_sum_erase _ _ hmem,
    ← Finset.add_sum_erase (Finset.range (OLED_HEIGHT g).toNat)
      (fun y => s.stack_depth_at_y (y : Int)) hmem]
  have hr : ((row.toNat : Nat) : Int) = row := Int.toNat_of_nonneg h0
  have hrest :
      ∑ y in (Finset.range (OLED_HEIGHT g).toNat).erase row.toNat,
        Function.update s.stack_depth_at_y row v (y : Int)
      = ∑ y in (Finset.range (OLED_HEIGHT g).toNat).erase row.toNat,
        s.stack_depth_at_y (y : Int) := by
    apply Finset.sum_congr rfl
    intro y hy
    have hne : (y : Int) ≠ row := by
      have := Finset.ne_of_mem_erase hy
      omega
    rw [Function.update_noteq hne]
  rw [hrest, hr, Function.update_same]
  omega

theorem tally_ok_tick (g : Geometry) (hH : 1 ≤ OLED_HEIGHT g) (hW : OLED_WIDTH g ≤ 255)
    (s : Sim) (i : Int) (d : Nat) (hs : tally_ok g s d) :
    tally_ok g (update_ball_state g s i) (d + landing_dropped g s i) := by
  obtain ⟨hsum, hle⟩ := hs
  cases ha : (s.balls i).active with
  | false =>
    have hd : landing_dropped g s i = 0 := by simp [landing_dropped, ha]
    rw [hd, update_ball_state_inactive g s i ha]
    exact ⟨hsum, hle⟩
  | true =>
    by_cases hx : (s.balls i).x_pos + 1 < FINAL_X g
    · obtain ⟨hb, ht, hn, _⟩ := update_ball_state_fly g s i ha hx
      have hact : ((update_ball_state g s i).balls i).active = true := by
        rw [hb]; unfold after_pin; rw [pin_step_active]; exact ha
      have hd : landing_dropped g s i = 0 := by simp [landing_dropped, hact]
      rw [hd]
      refine ⟨?_, ?_⟩
      · rw [hn, ← hsum]; unfold tally_sum; rw [ht]; rfl
      · rw [ht]; exact hle
    · obtain ⟨hb, ht, hn, _⟩ := update_ball_state_land g s i ha (by omega)
      have hy : ((update_ball_state g s i).balls i).y_pos = (after_pin g s i).y_pos := by
        rw [hb]
      have hact : ((update_ball_state g s i).balls i).active = false := by rw [hb]
      obtain ⟨hr0, hr1⟩ := final_y_range g hH (after_pin g s i).y_pos
      have hrow := hle (final_y g (after_pin g s i).y_pos)
      by_cases hlt : (s.stack_depth_at_y (final_y g (after_pin g s i).y_pos) : Int) < OLED_WIDTH g
      · have hd : landing_dropped g s i = 0 := by
          unfold landing_dropped
          rw [if_neg]
          rw [hy]
          rintro ⟨_, _, h⟩
          omega
        rw [if_pos hlt, Nat.mod_eq_of_lt (by omega)] at ht
        have hupd := tally_sum_update g s _ _ hr0 hr1 _ ht
        rw [hd]
        refine ⟨?_, ?_⟩
        · rw [hn, ← hsum]
          have : tally_sum g (update_ball_state g s i) = tally_sum g s + 1 := by omega
          rw [this]
          omega
        · intro row
          rw [ht]
          by_cases hrr : row = final_y g (after_pin g s i).y_pos
          · subst hrr
            rw [Function.update_same]
            push_cast
            omega
          · rw [Function.update_noteq hrr]
            exact hle row
      · have hd : landing_dropped g s i = 1 := by
          unfold landing_dropped
          rw [if_pos]
          rw [hy]
          exact ⟨ha, hact, by omega⟩
        rw [if_neg hlt] at ht
        rw [hd]
        refine ⟨?_, ?_⟩
        · rw [hn, ← hsum]
          have : tally_sum g (update_ball_state g s i) = tally_sum g s := by
            unfold tally_sum; rw [ht]
          rw [this]
          omega
        · rw [ht]; exact hle

theorem tally_ok_ticks (g : Geometry) (hH : 1 ≤ OLED_HEIGHT g) (hW : OLED_WIDTH g ≤ 255)
    (l : List Nat) (s : Sim) (d : Nat) (hs : tally_ok g s d) :
    tally_ok g (l.foldl (fun t i => update_ball_state g t (i : Int)) s)
      (d + dropped_in_ticks g l s) := by
  induction l generalizing s d with
  | nil => exact hs
  | cons a l ih =>
    have h := ih (update_ball_state g s a) (d + landing_dropped g s a)
      (tally_ok_tick g hH hW s a d hs)
    simp only [List.foldl_cons, dropped_in_ticks]
    rw [← Nat.add_assoc]
    exact h

theorem tally_ok_run (g : Geometry) (hH : 1 ≤ OLED_HEIGHT g) (hW : OLED_WIDTH g ≤ 255)
    (ops : List Op) (s : Sim) (d : Nat) (hs : tally_ok g s d) :
    tally_ok g (run g ops s) (d + dropped g ops s) := by
  induction ops generalizing s d with
  | nil => exact hs
  | cons op ops ih =>
    cases op with
    | spawn =>
      have h : tally_ok g (add_new_ball g s) d := hs
      exact ih _ d h
    | tick_all =>
      have h := ih _ _ (tally_ok_ticks g hH hW (List.range MAX_BALLS.toNat) s d hs)
      simp only [dropped]
      rw [← Nat.add_assoc]
      exact h

theorem tally_ok_initial (g : Geometry) (hW : 0 ≤ OLED_WIDTH g) (rs : Nat → Nat) :
    tally_ok g (initial_state rs) 0 := by
  refine ⟨?_, ?_⟩
  · simp [tally_sum, initial_state]
  · intro row
    simpa [initial_state] using hW

/-- C4: after every run from the initial state, the sum of the Landing Tally
plus the number of landings that hit a row whose tally equalled `OLED_WIDTH`
is the Total-Dropped Counter modulo `2 ^ 32`; while that number of landings is
below `2 ^ 32` (no overflow of the counter) the sum is the counter minus the
dropped increments, never exceeds the counter, and equals it when no landing
hit a saturated row. -/
theorem C4_tally_sum_counter (g : Geometry)
    (hH : 1 ≤ OLED_HEIGHT g) (hW0 : 0 ≤ OLED_WIDTH g) (hW : OLED_WIDTH g ≤ 255)
    (rs : Nat → Nat) (ops : List Op) :
    (tally_sum g (run g ops (initial_state rs)) + dropped g ops (initial_state rs)) % 2 ^ 32
      = (run g ops (initial_state rs)).total_balls_dropped_count ∧
    (tally_sum g (run g ops (initial_state rs)) + dropped g ops (initial_state rs) < 2 ^ 32 →
      tally_sum g (run g ops (initial_state rs))
        = (run g ops (initial_state rs)).total_balls_dropped_count
          - dropped g ops (initial_state rs) ∧
      tally_sum g (run g ops (initial_state rs))
        ≤ (run g ops (initial_state rs)).total_balls_dropped_count ∧
      (dropped g ops (initial_state rs) = 0 →
        tally_sum g (run g ops (initial_state rs))
          = (run g ops (initial_state rs)).total_balls_dropped_count)) := by
  have h := (tally_ok_run g hH hW ops (initial_state rs) 0 (tally_ok_initial g hW0 rs)).1
  rw [Nat.zero_add] at h
  refine ⟨h, ?_⟩
  intro hlt
  rw [Nat.mod_eq_of_lt hlt] at h
  refine ⟨by omega, by omega, ?_⟩
  intro h0
  omega

theorem C4_tally_sum_counter_witness :
    1 ≤ OLED_HEIGHT ssd1306_128x64 ∧ 0 ≤ OLED_WIDTH ssd1306_128x64 ∧
    OLED_WIDTH ssd1306_128x64 ≤ 255 ∧
    (tally_sum ssd1306_128x64 (run ssd1306_128x64 [Op.spawn, Op.tick_all] (initial_state (fun _ => 7)))
      + dropped ssd1306_128x64 [Op.spawn, Op.tick_all] (initial_state (fun _ => 7))) % 2 ^ 32
      = (run ssd1306_128x64 [Op.spawn, Op.tick_all]
          (initial_state (fun _ => 7))).total_balls_dropped_count :=
  ⟨by decide, by decide, by decide,
    (C4_tally_sum_counter ssd1306_128x64 (by decide) (by decide) (by decide) (fun _ => 7)
      [Op.spawn, Op.tick_all]).1⟩

/-! ## Pool -/

theorem check_idx_eq (c : Int) (hc : 0 ≤ c) (i : Nat) :
    (c + (i : Int)).tmod MAX_BALLS = (c + (i : Int)) % 50 := by
  unfold MAX_BALLS
  rw [Int.tmod_eq_emod] <;> omega

/-- What the search loop returns from counter `i` with `n` iterations left. -/
theorem find_free_slot_spec (s : Sim) (hc : 0 ≤ s.ball_add_index) (n i : Nat) :
    (find_free_slot s i n = -1 ∧
      ∀ j : Nat, i ≤ j → j < i + n →
        (s.balls ((s.ball_add_index + (j : Int)) % 50)).active = true) ∨
    (∃ k : Nat, i ≤ k ∧ k < i + n ∧
      (s.balls ((s.ball_add_index + (k : Int)) % 50)).active = false ∧
      (∀ j : Nat, i ≤ j → j < k →
        (s.balls ((s.ball_add_index + (j : Int)) % 50)).active = true) ∧
      find_free_slot s i n = (s.ball_add_index + (k : Int)) % 50) := by
  induction n generalizing i with
  | zero =>
    left
    exact ⟨rfl, fun j h1 h2 => by omega⟩
  | succ n ih =>
    have hidx := check_idx_eq s.ball_add_index hc i
    cases hact : (s.balls ((s.ball_add_index + (i : Int)) % 50)).active with
    | false =>
      right
      refine ⟨i, le_refl _, by omega, hact, fun j h1 h2 => by omega, ?_⟩
      simp only [find_free_slot, hidx, hact]
      simp
    | true =>
      have hstep : find_free_slot s i (n + 1) = find_free_slot s (i + 1) n := by
        simp only [find_free_slot, hidx, hact]
        simp
      rw [hstep]
      rcases ih (i + 1) with ⟨h1, h2⟩ | ⟨k, hk1, hk2, hk3, hk4, hk5⟩
      · left
        refine ⟨h1, fun j hj1 hj2 => ?_⟩
        by_cases hji : j = i
        · subst hji; exact hact
        · exact h2 j (by omega) (by omega)
      · right
        refine ⟨k, by omega, by omega, hk3, fun j hj1 hj2 => ?_, hk5⟩
        by_cases hji : j = i
        · subst hji; exact hact
        · exact hk4 j (by omega) hj2

/-- The slot chosen by `add_new_ball`: the first inactive slot of the circular
scan from the cursor, or the cursor when the scan finds none. -/
theorem index_to_use_spec (s : Sim) (hc0 : 0 ≤ s.ball_add_index) :
    (∃ i : Nat, (i : Int) < MAX_BALLS ∧
      (s.balls ((s.ball_add_index + (i : Int)) % MAX_BALLS)).active = false ∧
      (∀ j : Nat, j < i →
        (s.balls ((s.ball_add_index + (j : Int)) % MAX_BALLS)).active = true) ∧
      index_to_use s = (s.ball_add_index + (i : Int)) % MAX_BALLS) ∨
    ((∀ k : Int, 0 ≤ k → k < MAX_BALLS → (s.balls k).active = true) ∧
      index_to_use s = s.ball_add_index) := by
  have hM : MAX_BALLS = 50 := rfl
  have hN : MAX_BALLS.toNat = 50 := rfl
  rw [hM]
  rcases find_free_slot_spec s hc0 50 0 with ⟨h1, h2⟩ | ⟨k, _, hk2, hk3, hk4, hk5⟩
  · right
    refine ⟨fun k hk0 hk1 => ?_, ?_⟩
    · have hj := h2 ((k - s.ball_add_index) % 50).toNat (by omega) (by omega)
      have he : (s.ball_add_index + ((((k - s.ball_add_index) % 50).toNat : Nat) : Int)) % 50
          = k := by omega
      rw [he] at hj
      exact hj
    · unfold index_to_use
      rw [hN, h1]
      simp
  · left
    refine ⟨k, by omega, hk3, fun j hj => hk4 j (by omega) hj, ?_⟩
    unfold index_to_use
    rw [hN, hk5]
    have : (s.ball_add_index + (k : Int)) % 50 ≠ -1 := by omega
    simp [this]

theorem index_to_use_range (s : Sim)
    (hc0 : 0 ≤ s.ball_add_index) (hc1 : s.ball_add_index < MAX_BALLS) :
    0 ≤ index_to_use s ∧ index_to_use s < MAX_BALLS := by
  have hM : MAX_BALLS = 50 := rfl
  rcases index_to_use_spec s hc0 with ⟨i, _, _, _, h⟩ | ⟨_, h⟩
  · rw [h, hM]; omega
  · rw [h]; exact ⟨hc0, hc1⟩

theorem cursor_ok_spawn (g : Geometry) (s : Sim) (hs : cursor_ok s) :
    cursor_ok (add_new_ball g s) := by
  obtain ⟨h0, h1⟩ := index_to_use_range s hs.1 hs.2
  have hM : MAX_BALLS = 50 := rfl
  rw [hM] at h1
  unfold cursor_ok add_new_ball
  simp only [hM]
  rw [Int.tmod_eq_emod (by omega) (by omega)]
  omega

theorem cursor_ok_tick (g : Geometry) (s : Sim) (i : Int) (hs : cursor_ok s) :
    cursor_ok (update_ball_state g s i) := by
  unfold cursor_ok
  rw [update_ball_state_ball_add_index]
  exact hs

theorem active_count_le (s : Sim) : active_count s ≤ 50 := by
  unfold active_count
  have h := Finset.card_filter_le (Finset.range MAX_BALLS.toNat)
    (fun i : Nat => (s.balls (i : Int)).active = true)
  have hN : MAX_BALLS.toNat = 50 := rfl
  rw [hN] at h ⊢
  simpa using h

theorem all_active_of_count (s : Sim) (h : active_count s = 50) :
    ∀ k : Int, 0 ≤ k → k < MAX_BALLS → (s.balls k).active = true := by
  intro k hk0 hk1
  have hM : MAX_BALLS = 50 := rfl
  have hN : MAX_BALLS.toNat = 50 := rfl
  rw [hM] at hk1
  unfold active_count at h
  rw [hN] at h
  have h2 := Finset.filter_card_eq (s := Finset.range 50)
    (p := fun i : Nat => (s.balls (i : Int)).active = true) (by simpa using h)
    k.toNat (by simp only [Finset.mem_range]; omega)
  have hk : ((k.toNat : Nat) : Int) = k := Int.toNat_of_nonneg hk0
  have h3 : (s.balls ((k.toNat : Nat) : Int)).active = true := h2
  rw [hk] at h3
  exact h3

theorem active_count_spawn (g : Geometry) (s : Sim) (hs : cursor_ok s) :
    active_count (add_new_ball g s) = min (active_count s + 1) 50 := by
  have hM : MAX_BALLS = 50 := rfl
  have hN : MAX_BALLS.toNat = 50 := rfl
  obtain ⟨hi0, hi1⟩ := index_to_use_range s hs.1 hs.2
  rw [hM] at hi1
  have hle := active_count_le (add_new_ball g s)
  have hidx : (((index_to_use s).toNat : Nat) : Int) = index_to_use s :=
    Int.toNat_of_nonneg hi0
  have hset : (Finset.range 50).filter
        (fun i : Nat => ((add_new_ball g s).balls (i : Int)).active = true)
      = insert (index_to_use s).toNat
        ((Finset.range 50).filter (fun i : Nat => (s.balls (i : Int)).active = true)) := by
    ext a
    simp only [Finset.mem_filter, Finset.mem_range, Finset.mem_insert]
    by_cases ha : (a : Int) = index_to_use s
    · have : a = (index_to_use s).toNat := by omega
      subst this
      simp only [add_new_ball, hidx, Function.update_same]
      constructor
      · intro _; left; trivial
      · intro _; exact ⟨by omega, trivial⟩
    · have hne : a ≠ (index_to_use s).toNat := by omega
      simp only [add_new_ball, Function.update_noteq ha, hne, false_or]
  by_cases hact : (s.balls (index_to_use s)).active = true
  · have hmem : (index_to_use s).toNat ∈
        (Finset.range 50).filter (fun i : Nat => (s.balls (i : Int)).active = true) := by
      simp only [Finset.mem_filter, Finset.mem_range, hidx]
      exact ⟨by omega, hact⟩
    rw [Finset.insert_eq_of_mem hmem] at hset
    have heq : active_count (add_new_ball g s) = active_count s := by
      unfold active_count
      rw [hN, hset]
    rcases index_to_use_spec s hs.1 with ⟨i, _, hin, _, hi⟩ | ⟨hall, _⟩
    · rw [← hi] at hin
      rw [hin] at hact
      exact absurd hact (by simp)
    · have hfull : active_count s = 50 := by
        unfold active_count
        rw [hN, Finset.filter_true_of_mem]
        · simp
        · intro x hx
          simp only [Finset.mem_range] at hx
          exact hall x (by omega) (by rw [hM]; omega)
      rw [heq, hfull]
      rfl
  · have hmem : (index_to_use s).toNat ∉
        (Finset.range 50).filter (fun i : Nat => (s.balls (i : Int)).active = true) := by
      simp only [Finset.mem_filter, Finset.mem_range, hidx]
      intro h
      exact hact h.2
    have heq : active_count (add_new_ball g s) = active_count s + 1 := by
      unfold active_count
      rw [hN, hset, Finset.card_insert_of_not_mem hmem]
    rw [heq] at hle ⊢
    omega

/-- After `n` calls of `add_new_ball` in a row the cursor is valid and the
number of active slots has grown by `n`, up to the capacity. -/
theorem spawn_repeat (g : Geometry) (n : Nat) (s : Sim) (hs : cursor_ok s) :
    cursor_ok (run g (List.replicate n Op.spawn) s) ∧
    active_count (run g (List.replicate n Op.spawn) s) = min (active_count s + n) 50 := by
  induction n generalizing s with
  | zero =>
    refine ⟨hs, ?_⟩
    have := active_count_le s
    simp only [List.replicate, run, List.foldl_nil]
    omega
  | succ n ih =>
    obtain ⟨h1, h2⟩ := ih (add_new_ball g s) (cursor_ok_spawn g s hs)
    have hrun : run g (List.replicate (n + 1) Op.spawn) s
        = run g (List.replicate n Op.spawn) (add_new_ball g s) := rfl
    rw [hrun]
    refine ⟨h1, ?_⟩
    rw [h2, active_count_spawn g s hs]
    omega

theorem run_spawn_succ (g : Geometry) (n : Nat) (s : Sim) :
    run g (List.replicate (n + 1) Op.spawn) s
      = add_new_ball g (run g (List.replicate n Op.spawn) s) := by
  unfold run
  rw [List.replicate_succ', List.foldl_append]
  rfl

theorem cursor_ok_initial (rs : Nat → Nat) : cursor_ok (initial_state rs) := by
  constructor
  · exact le_refl _
  · show (0 : Int) < 50
    omega

/-- Filling the empty pool: after `n ≤ MAX_BALLS` spawns from the initial state
the slots `0 .. n - 1` are the active ones and the cursor is `n mod MAX_BALLS`. -/
theorem fill_from_initial (g : Geometry) (rs : Nat → Nat) (n : Nat) (hn : n ≤ 50) :
    (run g (List.replicate n Op.spawn) (initial_state rs)).ball_add_index = (n : Int) % 50 ∧
    ∀ k : Int, ((run g (List.replicate n Op.spawn) (initial_state rs)).balls k).active = true
      ↔ (0 ≤ k ∧ k < (n : Int)) := by
  induction n with
  | zero =>
    refine ⟨rfl, fun k => ?_⟩
    simp only [List.replicate, run, List.foldl_nil, initial_state]
    constructor
    · intro h; exact absurd h (by simp)
    · intro h; omega
  | succ n ih =>
    obtain ⟨hc, hact⟩ := ih (by omega)
    rw [run_spawn_succ]
    generalize run g (List.replicate n Op.spawn) (initial_state rs) = t at hc hact
    have hcn : t.ball_add_index = (n : Int) := by rw [hc]; omega
    have hM : MAX_BALLS = 50 := rfl
    have hidx : index_to_use t = (n : Int) := by
      have hfree : (t.balls (n : Int)).active = false := by
        cases h : (t.balls (n : Int)).active with
        | false => rfl
        | true => have := (hact n).1 h; omega
      rcases index_to_use_spec t (by omega) with ⟨i, _, _, hlt, hi⟩ | ⟨hall, _⟩
      · by_cases hi0 : i = 0
        · subst hi0
          rw [hi, hcn, hM]
          omega
        · have h0 := hlt 0 (by omega)
          have he : (t.ball_add_index + ((0 : Nat) : Int)) % MAX_BALLS = (n : Int) := by
            rw [hcn, hM]; omega
          rw [he, hfree] at h0
          exact absurd h0 (by simp)
      · have := hall (n : Int) (by omega) (by rw [hM]; omega)
        rw [hfree] at this
        exact absurd this (by simp)
    refine ⟨?_, fun k => ?_⟩
    · simp only [add_new_ball, hidx, hM]
      rw [Int.tmod_eq_emod (by omega) (by omega)]
      push_cast
      rfl
    · by_cases hk : k = (n : Int)
      · subst hk
        simp only [add_new_ball, hidx, Function.update_same]
        constructor
        · intro _; push_cast; omega
        · intro _; trivial
      · have hne : k ≠ index_to_use t := by rw [hidx]; exact hk
        simp only [add_new_ball, Function.update_noteq hne]
        rw [hact k]
        push_cast
        omega

theorem initial_cursor_after_fill (g : Geometry) (rs : Nat → Nat) :
    (run g (List.replicate MAX_BALLS.toNat Op.spawn) (initial_state rs)).ball_add_index = 0 := by
  have hN : MAX_BALLS.toNat = 50 := rfl
  rw [hN, (fill_from_initial g rs 50 (le_refl _)).1]
  rfl

/-- C5: from a pool whose cursor is a valid index, `MAX_BALLS + 1` calls of
`add_new_ball` with no tick in between leave exactly `MAX_BALLS` active slots,
and the last call writes the slot at the value `ball_add_index` has when that
call starts; from the initial state that slot is slot 0. -/
theorem C5_spawn_past_capacity (g : Geometry) (s : Sim)
    (hc0 : 0 ≤ s.ball_add_index) (hc1 : s.ball_add_index < MAX_BALLS) :
    (active_count (run g (List.replicate (MAX_BALLS.toNat + 1) Op.spawn) s) : Int) = MAX_BALLS ∧
    run g (List.replicate (MAX_BALLS.toNat + 1) Op.spawn) s
      = add_new_ball g (run g (List.replicate MAX_BALLS.toNat Op.spawn) s) ∧
    index_to_use (run g (List.replicate MAX_BALLS.toNat Op.spawn) s)
      = (run g (List.replicate MAX_BALLS.toNat Op.spawn) s).ball_add_index ∧
    (add_new_ball g (run g (List.replicate MAX_BALLS.toNat Op.spawn) s)).balls
      = Function.update (run g (List.replicate MAX_BALLS.toNat Op.spawn) s).balls
          (run g (List.replicate MAX_BALLS.toNat Op.spawn) s).ball_add_index
          { x_pos := START_X, y_pos := (START_Y g : ℚ), current_pin_level := 0, active := true } ∧
    (∀ rs : Nat → Nat,
      index_to_use (run g (List.replicate MAX_BALLS.toNat Op.spawn) (initial_state rs)) = 0) := by
  have hN : MAX_BALLS.toNat = 50 := rfl
  have key : ∀ t : Sim, cursor_ok t →
      index_to_use (run g (List.replicate MAX_BALLS.toNat Op.spawn) t)
        = (run g (List.replicate MAX_BALLS.toNat Op.spawn) t).ball_add_index := by
    intro t ht
    obtain ⟨h1, h2⟩ := spawn_repeat g MAX_BALLS.toNat t ht
    have hfull : active_count (run g (List.replicate MAX_BALLS.toNat Op.spawn) t) = 50 := by
      rw [h2, hN]; omega
    rcases index_to_use_spec _ h1.1 with ⟨i, _, hin, _, hi⟩ | ⟨_, h⟩
    · have hM : MAX_BALLS = 50 := rfl
      have := all_active_of_count _ hfull
        (((run g (List.replicate MAX_BALLS.toNat Op.spawn) t).ball_add_index + (i : Int))
          % MAX_BALLS) (by rw [hM]; omega) (by rw [hM]; omega)
      rw [this] at hin
      exact absurd hin (by simp)
    · exact h
  have hk := key s ⟨hc0, hc1⟩
  refine ⟨?_, run_spawn_succ g _ s, hk, ?_, ?_⟩
  · have h := (spawn_repeat g (MAX_BALLS.toNat + 1) s ⟨hc0, hc1⟩).2
    rw [h, hN]
    have := active_count_le s
    have hM : MAX_BALLS = 50 := rfl
    rw [hM]
    omega
  · unfold add_new_ball
    simp only [hk]
  · intro rs
    rw [key (initial_state rs) (cursor_ok_initial rs)]
    exact initial_cursor_after_fill g rs

theorem C5_spawn_past_capacity_witness :
    0 ≤ full_row_state.ball_add_index ∧ full_row_state.ball_add_index < MAX_BALLS ∧
    (active_count (run ssd1306_128x64 (List.replicate (MAX_BALLS.toNat + 1) Op.spawn)
      full_row_state) : Int) = MAX_BALLS :=
  ⟨by decide, by decide,
    (C5_spawn_past_capacity ssd1306_128x64 full_row_state (by decide) (by decide)).1⟩

/-- C6: with the cursor `c` a valid index, `add_new_ball` writes the slot
`(c + i) mod MAX_BALLS` for the least `i < MAX_BALLS` whose slot is inactive,
or the slot `c` when every slot is active; that slot becomes the ball at
`START_X`, `START_Y`, level 0, active; the cursor becomes the slot plus one
modulo `MAX_BALLS`; every other slot, the tally and the counter are unchanged. -/
theorem C6_spawn_effect (g : Geometry) (s : Sim)
    (hc0 : 0 ≤ s.ball_add_index) (hc1 : s.ball_add_index < MAX_BALLS) :
    ((∃ i : Nat, (i : Int) < MAX_BALLS ∧
        (s.balls ((s.ball_add_index + (i : Int)) % MAX_BALLS)).active = false ∧
        (∀ j : Nat, j < i →
          (s.balls ((s.ball_add_index + (j : Int)) % MAX_BALLS)).active = true) ∧
        index_to_use s = (s.ball_add_index + (i : Int)) % MAX_BALLS) ∨
      ((∀ k : Int, 0 ≤ k → k < MAX_BALLS → (s.balls k).active = true) ∧
        index_to_use s = s.ball_add_index)) ∧
    (0 ≤ index_to_use s ∧ index_to_use s < MAX_BALLS) ∧
    (add_new_ball g s).balls (index_to_use s)
      = { x_pos := START_X, y_pos := (START_Y g : ℚ), current_pin_level := 0, active := true } ∧
    (∀ j : Int, j ≠ index_to_use s → (add_new_ball g s).balls j = s.balls j) ∧
    (add_new_ball g s).ball_add_index = (index_to_use s + 1) % MAX_BALLS ∧
    (add_new_ball g s).stack_depth_at_y = s.stack_depth_at_y ∧
    (add_new_ball g s).total_balls_dropped_count = s.total_balls_dropped_count := by
  have hr := index_to_use_range s hc0 hc1
  refine ⟨index_to_use_spec s hc0, hr, ?_, ?_, ?_, rfl, rfl⟩
  · simp only [add_new_ball, Function.update_same]
  · intro j hj
    simp only [add_new_ball, Function.update_noteq hj]
  · have hM : MAX_BALLS = 50 := rfl
    rw [hM] at hr
    simp only [add_new_ball, hM]
    rw [Int.tmod_eq_emod (by omega) (by omega)]

theorem C6_spawn_effect_witness :
    0 ≤ full_row_state.ball_add_index ∧ full_row_state.ball_add_index < MAX_BALLS ∧
    (add_new_ball ssd1306_128x64 full_row_state).ball_add_index
      = (index_to_use full_row_state + 1) % MAX_BALLS :=
  ⟨by decide, by decide,
    (C6_spawn_effect ssd1306_128x64 full_row_state (by decide) (by decide)).2.2.2.2.1⟩

/-- C7: the cursor `ball_add_index` is in `[0, MAX_BALLS)` in the initial state
and after every run of spawns and ticks, so that every index the search loop
of `add_new_ball` computes, and the slot it writes, is a valid slot index. -/
theorem C7_cursor_in_range (g : Geometry) (rs : Nat → Nat) (ops : List Op) :
    (0 ≤ (initial_state rs).ball_add_index ∧ (initial_state rs).ball_add_index < MAX_BALLS) ∧
    (0 ≤ (run g ops (initial_state rs)).ball_add_index ∧
      (run g ops (initial_state rs)).ball_add_index < MAX_BALLS) ∧
    (∀ i : Nat,
      0 ≤ ((run g ops (initial_state rs)).ball_add_index + (i : Int)).tmod MAX_BALLS ∧
      ((run g ops (initial_state rs)).ball_add_index + (i : Int)).tmod MAX_BALLS < MAX_BALLS) ∧
    (0 ≤ index_to_use (run g ops (initial_state rs)) ∧
      index_to_use (run g ops (initial_state rs)) < MAX_BALLS) := by
  have h0 : cursor_ok (initial_state rs) := cursor_ok_initial rs
  have h : cursor_ok (run g ops (initial_state rs)) :=
    run_induct g cursor_ok (cursor_ok_spawn g) (cursor_ok_tick g) ops _ h0
  refine ⟨h0, h, ?_, index_to_use_range _ h.1 h.2⟩
  intro i
  rw [check_idx_eq _ h.1 i]
  have hM : MAX_BALLS = 50 := rfl
  rw [hM]
  omega

/-- C8: `oled_draw_string` with a row `y` that is not a multiple of 8, negative
rows included, returns the buffer it was given, for every buffer, column and
string. -/
theorem C8_draw_string_unaligned (g : Geometry) (font : Int → Nat) (buf : Buffer)
    (x y : Int) (str : List Char) (hy : ¬ (8 : Int) ∣ y) :
    oled_draw_string g font buf x y str = buf := by
  have h : y.tmod 8 ≠ 0 := fun h0 => hy (Int.dvd_of_tmod_eq_zero h0)
  unfold oled_draw_string
  rw [if_pos (Or.inr h)]

theorem C8_draw_string_unaligned_witness :
    (¬ (8 : Int) ∣ (-3)) ∧
    oled_draw_string ssd1306_128x64 (fun _ => 255) (some (fun _ => 0)) 16 (-3)
      ['T', 'O', 'T', 'A', 'L'] = some (fun _ => 0) :=
  ⟨by decide, C8_draw_string_unaligned ssd1306_128x64 (fun _ => 255) (some (fun _ => 0)) 16 (-3)
    ['T', 'O', 'T', 'A', 'L'] (by decide)⟩

/-! ## Bits of a buffer byte -/

theorem two_pow_mod_byte (k0 : Nat) (hk0 : k0 < 8) : 2 ^ k0 % 256 = 2 ^ k0 := by
  apply Nat.mod_eq_of_lt
  have : 2 ^ k0 < 2 ^ 8 := Nat.pow_lt_pow_right (by norm_num) hk0
  simpa using this

theorem byte_high_bit (a k : Nat) (ha : a < 256) (hk : 8 ≤ k) : a.testBit k = false := by
  apply Nat.testBit_lt_two_pow
  have : 2 ^ 8 ≤ 2 ^ k := Nat.pow_le_pow_right (by norm_num) hk
  omega

theorem set_bit_testBit (a k0 k : Nat) (ha : a < 256) (hk0 : k0 < 8) :
    ((a ||| (2 ^ k0 % 256)) % 256).testBit k = if k = k0 then true else a.testBit k := by
  rw [two_pow_mod_byte k0 hk0, show (256 : Nat) = 2 ^ 8 by norm_num, Nat.testBit_mod_two_pow,
    Nat.testBit_or, Nat.testBit_two_pow]
  by_cases hk : k < 8
  · by_cases hkk : k = k0
    · subst hkk; simp [hk]
    · have : ¬ k0 = k := fun h => hkk h.symm
      simp [hk, hkk, this]
  · have hne : k ≠ k0 := by omega
    have hb := byte_high_bit a k ha (by omega)
    simp [hk, hne, hb]

theorem clear_bit_testBit (a k0 k : Nat) (ha : a < 256) (hk0 : k0 < 8) :
    ((a &&& (255 ^^^ (2 ^ k0 % 256))) % 256).testBit k = if k = k0 then false else a.testBit k := by
  rw [two_pow_mod_byte k0 hk0, show (256 : Nat) = 2 ^ 8 by norm_num, Nat.testBit_mod_two_pow,
    Nat.testBit_and, Nat.testBit_xor, Nat.testBit_two_pow,
    show (255 : Nat) = 2 ^ 8 - 1 by norm_num, Nat.testBit_two_pow_sub_one]
  by_cases hk : k < 8
  · by_cases hkk : k = k0
    · subst hkk; simp [hk]
    · have : ¬ k0 = k := fun h => hkk h.symm
      simp [hk, hkk, this]
  · have hne : k ≠ k0 := by omega
    have hb := byte_high_bit a k ha (by omega)
    simp [hk, hne, hb]

theorem byte_idx_in_buffer (g : Geometry) (x y : Int)
    (hx0 : 0 ≤ x) (hx1 : x < OLED_WIDTH g) (hy0 : 0 ≤ y) (hy1 : y < OLED_HEIGHT g)
    (hH : (8 : Int) ∣ OLED_HEIGHT g)
    (hlen : g.ssd1306_buffer_length = (OLED_WIDTH g * OLED_HEIGHT g).tdiv 8) :
    0 ≤ y / 8 * OLED_WIDTH g + x ∧ y / 8 * OLED_WIDTH g + x < g.ssd1306_buffer_length := by
  obtain ⟨m, hm⟩ := hH
  have hlen2 : g.ssd1306_buffer_length = OLED_WIDTH g * m := by
    rw [hlen, hm, Int.tdiv_eq_ediv (by rw [← hm]; nlinarith) (by omega)]
    rw [show OLED_WIDTH g * (8 * m) = 8 * (OLED_WIDTH g * m) by ring]
    exact Int.mul_ediv_cancel_left _ (by omega)
  have hp0 : 0 ≤ y / 8 := by omega
  have hp1 : y / 8 + 1 ≤ m := by omega
  have h1 : (y / 8 + 1) * OLED_WIDTH g ≤ m * OLED_WIDTH g :=
    Int.mul_le_mul_of_nonneg_right hp1 (by omega)
  have h0 : 0 ≤ y / 8 * OLED_WIDTH g := Int.mul_nonneg hp0 (by omega)
  rw [hlen2]
  constructor
  · omega
  · nlinarith

/-- C9: on a buffer of `OLED_WIDTH * OLED_HEIGHT / 8` bytes of a display whose
height is a whole number of pages, `oled_set_pixel` with a coordinate off the
display returns the buffer unchanged; with `(x, y)` on the display the byte
index `(y / 8) * OLED_WIDTH + x` is inside the buffer, bit `y mod 8` of that
byte becomes the value asked for, and every other bit of every byte keeps its value. -/
theorem C9_set_pixel_one_bit (g : Geometry) (b : Int → Nat) (x y : Int) (lit : Bool)
    (hH : (8 : Int) ∣ OLED_HEIGHT g)
    (hlen : g.ssd1306_buffer_length = (OLED_WIDTH g * OLED_HEIGHT g).tdiv 8)
    (hbytes : ∀ i : Int, b i < 256) :
    ((x < 0 ∨ OLED_WIDTH g ≤ x ∨ y < 0 ∨ OLED_HEIGHT g ≤ y) →
      oled_set_pixel g (some b) x y lit = some b) ∧
    ((0 ≤ x ∧ x < OLED_WIDTH g ∧ 0 ≤ y ∧ y < OLED_HEIGHT g) →
      (0 ≤ y / 8 * OLED_WIDTH g + x ∧ y / 8 * OLED_WIDTH g + x < g.ssd1306_buffer_length) ∧
      ∃ b' : Int → Nat, oled_set_pixel g (some b) x y lit = some b' ∧
        (b' (y / 8 * OLED_WIDTH g + x)).testBit (y % 8).toNat = lit ∧
        ∀ (i : Int) (k : Nat), ¬ (i = y / 8 * OLED_WIDTH g + x ∧ k = (y % 8).toNat) →
          (b' i).testBit k = (b i).testBit k) := by
  constructor
  · intro h
    unfold oled_set_pixel _set_pixel_internal
    simp only [ge_iff_le]
    rw [if_pos h]
  · rintro ⟨hx0, hx1, hy0, hy1⟩
    have hidx := byte_idx_in_buffer g x y hx0 hx1 hy0 hy1 hH hlen
    refine ⟨hidx, ?_⟩
    have hd : y.tdiv 8 = y / 8 := Int.tdiv_eq_ediv hy0 (by omega)
    have hm : y.tmod 8 = y % 8 := Int.tmod_eq_emod hy0 (by omega)
    have hk0 : (y % 8).toNat < 8 := by omega
    have hrange : ¬ (x < 0 ∨ x ≥ OLED_WIDTH g ∨ y < 0 ∨ y ≥ OLED_HEIGHT g) := by omega
    have hguard : ¬ (y / 8 * OLED_WIDTH g + x ≥ g.ssd1306_buffer_length) := by omega
    unfold oled_set_pixel _set_pixel_internal
    simp only [hd, hm]
    rw [if_neg hrange, if_neg hguard]
    cases lit with
    | true =>
      rw [if_pos rfl]
      refine ⟨_, rfl, ?_, ?_⟩
      · rw [Function.update_same, set_bit_testBit _ _ _ (hbytes _) hk0, if_pos rfl]
      · intro i k hik
        by_cases hi : i = y / 8 * OLED_WIDTH g + x
        · subst hi
          have hk : k ≠ (y % 8).toNat := fun h => hik ⟨rfl, h⟩
          rw [Function.update_same, set_bit_testBit _ _ _ (hbytes _) hk0, if_neg hk]
        · rw [Function.update_noteq hi]
    | false =>
      rw [if_neg (by simp)]
      refine ⟨_, rfl, ?_, ?_⟩
      · rw [Function.update_same, clear_bit_testBit _ _ _ (hbytes _) hk0, if_pos rfl]
      · intro i k hik
        by_cases hi : i = y / 8 * OLED_WIDTH g + x
        · subst hi
          have hk : k ≠ (y % 8).toNat := fun h => hik ⟨rfl, h⟩
          rw [Function.update_same, clear_bit_testBit _ _ _ (hbytes _) hk0, if_neg hk]
        · rw [Function.update_noteq hi]

theorem C9_set_pixel_one_bit_witness :
    (8 : Int) ∣ OLED_HEIGHT ssd1306_128x64 ∧
    ssd1306_128x64.ssd1306_buffer_length
      = (OLED_WIDTH ssd1306_128x64 * OLED_HEIGHT ssd1306_128x64).tdiv 8 ∧
    ∃ b' : Int → Nat,
      oled_set_pixel ssd1306_128x64 (some (fun _ => 0)) 5 12 true = some b' ∧
      (b' ((12 : Int) / 8 * OLED_WIDTH ssd1306_128x64 + 5)).testBit ((12 : Int) % 8).toNat = true :=
  ⟨by decide, by decide,
    match (C9_set_pixel_one_bit ssd1306_128x64 (fun _ => 0) 5 12 true (by decide) (by decide)
      (fun _ => Nat.zero_lt_succ 255)).2 ⟨by decide, by decide, by decide, by decide⟩ with
    | ⟨_, b', h1, h2, _⟩ => ⟨b', h1, h2⟩⟩

/-- C10, as stated, fails: with the pin low and exactly `DEBOUNCE_DELAY_US`
elapsed since the stored timestamp the poll returns false and keeps the
timestamp. -/
theorem C10_counterexample :
    ((200000 : Nat) : Int) - ((0 : Nat) : Int) ≥ DEBOUNCE_DELAY_US ∧
    check_button_press 200000 false 0 = (false, 0) := by
  decide

/-- C10 (amended): the poll returns true and stores `now` exactly when the pin
reads low and strictly more than `DEBOUNCE_DELAY_US` has elapsed since the
stored timestamp, the difference being that of two `uint64_t` values; in every
other case it returns false and keeps the timestamp.  For `last ≤ now` the
difference is the plain one. -/
theorem C10_debounce_strict (now last : Nat) (level : Bool) :
    (check_button_press now level last = (true, now) ↔
      (level = false ∧ ((now : Int) - (last : Int)) % 2 ^ 64 > DEBOUNCE_DELAY_US)) ∧
    (¬ (level = false ∧ ((now : Int) - (last : Int)) % 2 ^ 64 > DEBOUNCE_DELAY_US) ↔
      check_button_press now level last = (false, last)) ∧
    (last ≤ now ∧ now < 2 ^ 64 →
      ((now : Int) - (last : Int)) % 2 ^ 64 = (now : Int) - (last : Int)) := by
  refine ⟨?_, ?_, ?_⟩
  · unfold check_button_press
    generalize ((now : Int) - (last : Int)) % 2 ^ 64 = d
    by_cases h : d > DEBOUNCE_DELAY_US <;> cases level <;> simp [h]
  · unfold check_button_press
    generalize ((now : Int) - (last : Int)) % 2 ^ 64 = d
    by_cases h : d > DEBOUNCE_DELAY_US <;> cases level <;> simp [h]
  · rintro ⟨h1, h2⟩
    apply Int.emod_eq_of_lt <;> omega

/-! ## Debounce over a sequence of polls -/

theorem check_button_press_cases (now last : Nat) (level : Bool) :
    ((check_button_press now level last).1 = true ∧
      (check_button_press now level last).2 = now ∧
      ((now : Int) - (last : Int)) % 2 ^ 64 > DEBOUNCE_DELAY_US) ∨
    ((check_button_press now level last).1 = false ∧
      (check_button_press now level last).2 = last) := by
  unfold check_button_press
  generalize ((now : Int) - (last : Int)) % 2 ^ 64 = d
  by_cases h : d > DEBOUNCE_DELAY_US <;> cases level <;> simp [h]

/-- Polls at non-decreasing readings, none before the stored timestamp: every
poll that returns true is more than the delay after the stored timestamp, and
two polls that return true are more than the delay apart. -/
theorem poll_sequence_after (polls : List (Nat × Bool)) (last : Nat)
    (hs : polls.Pairwise (fun p q => p.1 ≤ q.1))
    (hge : ∀ p ∈ polls, last ≤ p.1) (h64 : ∀ p ∈ polls, p.1 < 2 ^ 64) :
    (∀ p ∈ poll_sequence last polls, p.2 = true → (last : Int) + DEBOUNCE_DELAY_US < (p.1 : Int)) ∧
    (poll_sequence last polls).Pairwise
      (fun p q => p.2 = true → q.2 = true → (p.1 : Int) + DEBOUNCE_DELAY_US < (q.1 : Int)) := by
  induction polls generalizing last with
  | nil => exact ⟨fun p hp => by simp [poll_sequence] at hp, List.Pairwise.nil⟩
  | cons a polls ih =>
    obtain ⟨now, level⟩ := a
    rw [List.pairwise_cons] at hs
    have hnow : last ≤ now := hge (now, level) (List.mem_cons_self _ _)
    have hnow64 : now < 2 ^ 64 := h64 (now, level) (List.mem_cons_self _ _)
    have hD : DEBOUNCE_DELAY_US = 200000 := by decide
    have hplain : ((now : Int) - (last : Int)) % 2 ^ 64 = (now : Int) - (last : Int) := by
      apply Int.emod_eq_of_lt <;> omega
    have hrest64 : ∀ p ∈ polls, p.1 < 2 ^ 64 := fun p hp => h64 p (List.mem_cons_of_mem _ hp)
    have hrestnow : ∀ p ∈ polls, now ≤ p.1 := fun p hp => hs.1 p hp
    simp only [poll_sequence]
    rcases check_button_press_cases now last level with ⟨h1, h2, h3⟩ | ⟨h1, h2⟩
    · rw [h1, h2]
      rw [hplain] at h3
      obtain ⟨ihA, ihP⟩ := ih now hs.2 hrestnow hrest64
      refine ⟨?_, ?_⟩
      · intro p hp hpt
        rcases List.mem_cons.mp hp with rfl | hp
        · simp only; omega
        · have := ihA p hp hpt; omega
      · rw [List.pairwise_cons]
        exact ⟨fun q hq _ hqt => ihA q hq hqt, ihP⟩
    · rw [h1, h2]
      obtain ⟨ihA, ihP⟩ := ih last hs.2 (fun p hp => le_trans hnow (hrestnow p hp)) hrest64
      refine ⟨?_, ?_⟩
      · intro p hp hpt
        rcases List.mem_cons.mp hp with rfl | hp
        · simp at hpt
        · exact ihA p hp hpt
      · rw [List.pairwise_cons]
        exact ⟨fun q _ hpt => by simp at hpt, ihP⟩

/-- C11: for polls of one button at non-decreasing clock readings (64-bit
values), whatever the pin reads at each of them and whatever the stored
timestamp at the start, two polls that return true have clock readings more
than `DEBOUNCE_DELAY_US` apart, hence at least `DEBOUNCE_DELAY_US` apart: no
window of that length holds two of them. -/
theorem C11_one_press_per_window (polls : List (Nat × Bool)) (last : Nat)
    (hs : polls.Pairwise (fun p q => p.1 ≤ q.1)) (h64 : ∀ p ∈ polls, p.1 < 2 ^ 64) :
    (poll_sequence last polls).Pairwise
      (fun p q => p.2 = true → q.2 = true →
        DEBOUNCE_DELAY_US ≤ (q.1 : Int) - (p.1 : Int) ∧
        DEBOUNCE_DELAY_US < (q.1 : Int) - (p.1 : Int)) := by
  have weaken : ∀ l : List (Nat × Bool),
      l.Pairwise (fun p q => p.2 = true → q.2 = true →
        (p.1 : Int) + DEBOUNCE_DELAY_US < (q.1 : Int)) →
      l.Pairwise (fun p q => p.2 = true → q.2 = true →
        DEBOUNCE_DELAY_US ≤ (q.1 : Int) - (p.1 : Int) ∧
        DEBOUNCE_DELAY_US < (q.1 : Int) - (p.1 : Int)) := by
    intro l hl
    refine hl.imp ?_
    intro p q h hp hq
    have := h hp hq
    constructor <;> omega
  induction polls generalizing last with
  | nil => exact List.Pairwise.nil
  | cons a polls ih =>
    obtain ⟨now, level⟩ := a
    rw [List.pairwise_cons] at hs
    have hrest64 : ∀ p ∈ polls, p.1 < 2 ^ 64 := fun p hp => h64 p (List.mem_cons_of_mem _ hp)
    simp only [poll_sequence]
    rcases check_button_press_cases now last level with ⟨h1, h2, _⟩ | ⟨h1, h2⟩
    · rw [h1, h2]
      obtain ⟨hA, hP⟩ := poll_sequence_after polls now hs.2 (fun p hp => hs.1 p hp) hrest64
      rw [List.pairwise_cons]
      refine ⟨fun q hq _ hqt => ?_, weaken _ hP⟩
      have := hA q hq hqt
      constructor <;> omega
    · rw [h1, h2, List.pairwise_cons]
      exact ⟨fun q _ hpt => by simp at hpt, ih last hs.2 hrest64⟩

theorem C11_one_press_per_window_witness :
    (poll_sequence 0 [(250000, false), (300000, false), (460000, false)]).Pairwise
      (fun p q => p.2 = true → q.2 = true →
        DEBOUNCE_DELAY_US ≤ (q.1 : Int) - (p.1 : Int) ∧
        DEBOUNCE_DELAY_US < (q.1 : Int) - (p.1 : Int)) :=
  C11_one_press_per_window [(250000, false), (300000, false), (460000, false)] 0
    (by decide) (by decide)

/-! ## Glyph offsets -/

theorem ofNat_upper_toNat : ∀ m : Nat, m < 91 → 65 ≤ m → (Char.ofNat m).toNat = m := by
  decide

theorem toUpper_toNat (c : Char) :
    c.toUpper.toNat = if 97 ≤ c.toNat ∧ c.toNat ≤ 122 then c.toNat - 32 else c.toNat := by
  unfold Char.toUpper
  by_cases h : c.toNat ≥ 97 ∧ c.toNat ≤ 122
  · have h' : 97 ≤ c.toNat ∧ c.toNat ≤ 122 := h
    simp only [h, h', and_self, if_true]
    exact ofNat_upper_toNat _ (by omega) (by omega)
  · have h' : ¬ (97 ≤ c.toNat ∧ c.toNat ≤ 122) := h
    simp only [h, h', if_false]

theorem char_eq_colon_iff (c : Char) : c = ':' ↔ c.toNat = 58 := by
  constructor
  · intro h; rw [h]; decide
  · intro h
    have := Char.ofNat_toNat c
    rw [h] at this
    exact this.symm

/-- The offset as a function of the character code. -/
theorem font_char_offset_code (c : Char) :
    _oled_get_font_char_offset c =
      if 65 ≤ c.toNat ∧ c.toNat ≤ 90 then 8 * (1 + ((c.toNat : Int) - 65))
      else if 97 ≤ c.toNat ∧ c.toNat ≤ 122 then 8 * (1 + ((c.toNat : Int) - 97))
      else if 48 ≤ c.toNat ∧ c.toNat ≤ 57 then 8 * (27 + ((c.toNat : Int) - 48))
      else if c.toNat = 58 then 8 * 37
      else 0 := by
  have hA : 'A'.toNat = 65 := by decide
  have hZ : 'Z'.toNat = 90 := by decide
  have h0 : '0'.toNat = 48 := by decide
  have h9 : '9'.toNat = 57 := by decide
  unfold _oled_get_font_char_offset
  simp only [char_eq_colon_iff, hA, hZ, h0, h9, toUpper_toNat]
  by_cases hl : 97 ≤ c.toNat ∧ c.toNat ≤ 122
  · simp only [hl, and_self, if_true]
    have h1 : 65 ≤ c.toNat - 32 ∧ c.toNat - 32 ≤ 90 := by omega
    have h2 : ¬ (65 ≤ c.toNat ∧ c.toNat ≤ 90) := by omega
    rw [if_pos h1, if_neg h2]
    push_cast
    omega
  · simp only [hl, if_false]
    split_ifs <;> push_cast <;> omega

/-- C18: the glyph offset of a character is `8 * (1 + (C - 'A'))` when its
upper-cased form `C` is a letter (so for `A..Z` and for `a..z`),
`8 * (27 + (c - '0'))` for a digit, `8 * 37` for the colon and 0, the blank
glyph, for every other character; it is a multiple of 8 between 0 and 296 and
`offset + 7` is inside a table of 38 glyphs of 8 bytes. -/
theorem C18_font_char_offset (c : Char) :
    ((65 ≤ c.toUpper.toNat ∧ c.toUpper.toNat ≤ 90) →
      _oled_get_font_char_offset c = 8 * (1 + ((c.toUpper.toNat : Int) - ('A'.toNat : Int)))) ∧
    ((65 ≤ c.toUpper.toNat ∧ c.toUpper.toNat ≤ 90) ↔
      ((65 ≤ c.toNat ∧ c.toNat ≤ 90) ∨ (97 ≤ c.toNat ∧ c.toNat ≤ 122))) ∧
    ((48 ≤ c.toNat ∧ c.toNat ≤ 57) →
      _oled_get_font_char_offset c = 8 * (27 + ((c.toNat : Int) - ('0'.toNat : Int)))) ∧
    (c = ':' → _oled_get_font_char_offset c = 8 * 37) ∧
    (¬ (65 ≤ c.toUpper.toNat ∧ c.toUpper.toNat ≤ 90) → ¬ (48 ≤ c.toNat ∧ c.toNat ≤ 57) →
      c ≠ ':' → _oled_get_font_char_offset c = 0) ∧
    (8 : Int) ∣ _oled_get_font_char_offset c ∧
    0 ≤ _oled_get_font_char_offset c ∧ _oled_get_font_char_offset c ≤ 296 ∧
    _oled_get_font_char_offset c + 7 < 38 * 8 := by
  have hA : 'A'.toNat = 65 := by decide
  have h0 : '0'.toNat = 48 := by decide
  have hcode := font_char_offset_code c
  have hup := toUpper_toNat c
  have hcolon := char_eq_colon_iff c
  rw [hA, h0]
  refine ⟨?_, ?_, ?_, ?_, ?_, ?_, ?_, ?_, ?_⟩
  · intro h
    rw [hcode]
    split_ifs at hup ⊢ <;> push_cast <;> omega
  · split_ifs at hup <;> omega
  · intro h
    rw [hcode]
    split_ifs <;> omega
  · intro h
    rw [hcode]
    have := hcolon.mp h
    split_ifs <;> omega
  · intro h1 h2 h3
    rw [hcode]
    have h58 : c.toNat ≠ 58 := fun h => h3 (hcolon.mpr h)
    split_ifs at hup ⊢ <;> omega
  · rw [hcode]
    split_ifs <;> omega
  · rw [hcode]
    split_ifs <;> omega
  · rw [hcode]
    split_ifs <;> omega
  · rw [hcode]
    split_ifs <;> omega

/-! ## Tally screen -/

theorem score_text_length (n : Nat) (hn : n < 2 ^ 32) :
    (n = 0 → (score_text n).length = 1) ∧
    (n ≠ 0 → (score_text n).length = Nat.log 10 n + 1 ∧ Nat.log 10 n < 10) := by
  constructor
  · intro h
    simp [score_text, h]
  · intro h
    have hlog : Nat.log 10 n < 10 :=
      Nat.log_lt_of_lt_pow h (lt_of_lt_of_le hn (by norm_num))
    refine ⟨?_, hlog⟩
    unfold score_text
    rw [if_neg h, List.length_take, List.length_map, List.length_reverse,
      Nat.digits_len 10 n (by norm_num) h]
    omega

theorem score_x_pos_eq (g : Geometry) (n : Nat) :
    score_x_pos g n = max 0 ((OLED_WIDTH g - 8 * ((score_text n).length : Int)) / 2) := by
  unfold score_x_pos
  have h8 : ((score_text n).length : Int) * 8 = 8 * ((score_text n).length : Int) := by ring
  rw [h8]
  generalize OLED_WIDTH g - 8 * ((score_text n).length : Int) = v
  by_cases hv : 0 ≤ v
  · rw [Int.tdiv_eq_ediv hv (by omega)]
    have : ¬ (v / 2 < 0) := by omega
    rw [if_neg this]
    omega
  · have h1 : v.tdiv 2 < 0 ∨ v.tdiv 2 = 0 := by
      have hneg : v.tdiv 2 = -((-v) / 2) := by
        rw [← Int.tdiv_eq_ediv (by omega) (by omega), Int.neg_tdiv, neg_neg]
      omega
    have h2 : v / 2 < 0 := by omega
    rcases h1 with h1 | h1
    · rw [if_pos h1]; omega
    · rw [if_neg (by omega), h1]; omega

/-- C13: `render_score_screen` draws the counter text at the column
`max 0 ((OLED_WIDTH - 8 * d) / 2)`, `d` being the number of characters of the
decimal text of the counter (1 for zero, otherwise the `d` with
`10 ^ (d - 1) ≤ n < 10 ^ d`); on a display 128 pixels wide the column is 52
for every count of three digits, and for every 32-bit count the text starts at
a column `≥ 0` and ends at most at column 128. -/
theorem C13_score_centering (g : Geometry) (font : Int → Nat) (s : Sim) (buf : Buffer)
    (hn : s.total_balls_dropped_count < 2 ^ 32) :
    render_score_screen g font s buf =
      oled_draw_string g font
        (oled_draw_string g font (oled_clear_buffer g buf) 16 16 ['T', 'O', 'T', 'A', 'L', ' '])
        (to_int16 (score_x_pos g s.total_balls_dropped_count)) 32
        (score_text s.total_balls_dropped_count) ∧
    score_x_pos g s.total_balls_dropped_count =
      max 0 ((OLED_WIDTH g - 8 * ((score_text s.total_balls_dropped_count).length : Int)) / 2) ∧
    (s.total_balls_dropped_count = 0 → (score_text s.total_balls_dropped_count).length = 1) ∧
    (s.total_balls_dropped_count ≠ 0 →
      10 ^ ((score_text s.total_balls_dropped_count).length - 1) ≤ s.total_balls_dropped_count ∧
      s.total_balls_dropped_count < 10 ^ (score_text s.total_balls_dropped_count).length) ∧
    (OLED_WIDTH g = 128 →
      (100 ≤ s.total_balls_dropped_count → s.total_balls_dropped_count ≤ 999 →
        score_x_pos g s.total_balls_dropped_count = 52) ∧
      to_int16 (score_x_pos g s.total_balls_dropped_count)
        = score_x_pos g s.total_balls_dropped_count ∧
      0 ≤ score_x_pos g s.total_balls_dropped_count ∧
      score_x_pos g s.total_balls_dropped_count
        + 8 * ((score_text s.total_balls_dropped_count).length : Int) ≤ 128) := by
  refine ⟨rfl, ?_⟩
  generalize s.total_balls_dropped_count = n at hn ⊢
  obtain ⟨hz, hnz⟩ := score_text_length n hn
  have hx := score_x_pos_eq g n
  have hlen : 1 ≤ (score_text n).length ∧ (score_text n).length ≤ 10 := by
    by_cases h0 : n = 0
    · rw [hz h0]; omega
    · rw [(hnz h0).1]; have := (hnz h0).2; omega
  refine ⟨hx, hz, ?_, ?_⟩
  · intro h0
    obtain ⟨hl, _⟩ := hnz h0
    rw [hl, Nat.add_sub_cancel]
    exact ⟨Nat.pow_log_le_self 10 h0, Nat.lt_pow_succ_log_self (by norm_num) n⟩
  · intro hW
    rw [hx, hW]
    refine ⟨?_, ?_, ?_, ?_⟩
    · intro h100 h999
      have h0 : n ≠ 0 := by omega
      have hlog : Nat.log 10 n = 2 := by
        rw [Nat.log_eq_iff (Or.inl (by norm_num))]
        constructor <;> norm_num <;> omega
      rw [(hnz h0).1, hlog]
      norm_num
    · unfold to_int16
      omega
    · omega
    · omega

theorem C13_score_centering_witness :
    (full_row_state.total_balls_dropped_count < 2 ^ 32) ∧
    score_x_pos ssd1306_128x64 full_row_state.total_balls_dropped_count = 52 :=
  ⟨by decide,
    ((C13_score_centering ssd1306_128x64 (fun _ => 0) full_row_state none (by decide)).2.2.2.2
      rfl).1 (by decide) (by decide)⟩

/-! ## Main loop -/

/-- C14: an iteration of the main loop that runs with the screen state equal
to `SCREEN_SCORE` (the state tested after the poll of the switch button)
leaves every ball slot, the cursor, the Landing Tally, the Total-Dropped
Counter, the timestamp of the drop button and the random stream unchanged,
whatever the clock and the drop button read. -/
theorem C14_score_screen_frame (g : Geometry) (font : Int → Nat)
    (now_switch : Nat) (switch_level : Bool) (now_drop : Nat) (drop_level : Bool)
    (s : Sim) (buf : Buffer)
    (hscreen : (poll_switch_button now_switch switch_level s).current_screen
      = ScreenState.SCREEN_SCORE) :
    (main_loop_iteration g font now_switch switch_level now_drop drop_level s buf).1.balls
      = s.balls ∧
    (main_loop_iteration g font now_switch switch_level now_drop drop_level s buf).1.ball_add_index
      = s.ball_add_index ∧
    (main_loop_iteration g font now_switch switch_level now_drop drop_level s buf).1.stack_depth_at_y
      = s.stack_depth_at_y ∧
    (main_loop_iteration g font now_switch switch_level now_drop drop_level
      s buf).1.total_balls_dropped_count = s.total_balls_dropped_count ∧
    (main_loop_iteration g font now_switch switch_level now_drop drop_level
      s buf).1.last_drop_button_press_time = s.last_drop_button_press_time ∧
    (main_loop_iteration g font now_switch switch_level now_drop drop_level s buf).1.rand_stream
      = s.rand_stream ∧
    (main_loop_iteration g font now_switch switch_level now_drop drop_level s buf).1.current_screen
      = ScreenState.SCREEN_SCORE := by
  have hne : ¬ ((poll_switch_button now_switch switch_level s).current_screen
      = ScreenState.SCREEN_GAME) := by
    rw [hscreen]; decide
  unfold main_loop_iteration
  rw [if_neg hne]
  exact ⟨rfl, rfl, rfl, rfl, rfl, rfl, hscreen⟩

theorem C14_score_screen_frame_witness :
    (poll_switch_button 250000 false (initial_state (fun _ => 7))).current_screen
      = ScreenState.SCREEN_SCORE ∧
    (main_loop_iteration ssd1306_128x64 (fun _ => 0) 250000 false 250001 false
      (initial_state (fun _ => 7)) none).1.ball_add_index
      = (initial_state (fun _ => 7)).ball_add_index :=
  ⟨by decide,
    (C14_score_screen_frame ssd1306_128x64 (fun _ => 0) 250000 false 250001 false
      (initial_state (fun _ => 7)) none (by decide)).2.1⟩

/-! ## Saturation and monotonicity of the tally -/

theorem tally_tick_mono (g : Geometry) (hW : OLED_WIDTH g ≤ 255) (s : Sim) (i : Int)
    (hs : tally_le g s) :
    tally_le g (update_ball_state g s i) ∧
    ∀ row : Int, s.stack_depth_at_y row ≤ (update_ball_state g s i).stack_depth_at_y row := by
  cases ha : (s.balls i).active with
  | false =>
    rw [update_ball_state_inactive g s i ha]
    exact ⟨hs, fun _ => le_refl _⟩
  | true =>
    by_cases hx : (s.balls i).x_pos + 1 < FINAL_X g
    · obtain ⟨_, ht, _, _⟩ := update_ball_state_fly g s i ha hx
      unfold tally_le
      rw [ht]
      exact ⟨hs, fun _ => le_refl _⟩
    · obtain ⟨_, ht, _, _⟩ := update_ball_state_land g s i ha (by omega)
      unfold tally_le
      rw [ht]
      by_cases hlt : (s.stack_depth_at_y (final_y g (after_pin g s i).y_pos) : Int) < OLED_WIDTH g
      · rw [if_pos hlt, Nat.mod_eq_of_lt (by omega)]
        constructor
        · intro row
          by_cases hr : row = final_y g (after_pin g s i).y_pos
          · subst hr
            rw [Function.update_same]
            push_cast
            omega
          · rw [Function.update_noteq hr]
            exact hs row
        · intro row
          by_cases hr : row = final_y g (after_pin g s i).y_pos
          · subst hr
            rw [Function.update_same]
            omega
          · rw [Function.update_noteq hr]
      · rw [if_neg hlt]
        exact ⟨hs, fun _ => le_refl _⟩

theorem tally_le_initial (g : Geometry) (hW0 : 0 ≤ OLED_WIDTH g) (rs : Nat → Nat) :
    tally_le g (initial_state rs) := by
  intro row
  simpa [initial_state] using hW0

theorem run_append (g : Geometry) (ops more : List Op) (s : Sim) :
    run g (ops ++ more) s = run g more (run g ops s) := by
  unfold run
  rw [List.foldl_append]

/-- C15: in every state reached from the initial state by spawns and ticks
every entry of the Landing Tally is at most `OLED_WIDTH`, and whatever
operations follow, no entry is ever below its present value (the width being
one that the 8-bit entries can hold). -/
theorem C15_tally_capped_monotone (g : Geometry)
    (hW0 : 0 ≤ OLED_WIDTH g) (hW : OLED_WIDTH g ≤ 255)
    (rs : Nat → Nat) (ops more : List Op) (row : Int) :
    ((run g ops (initial_state rs)).stack_depth_at_y row : Int) ≤ OLED_WIDTH g ∧
    (run g ops (initial_state rs)).stack_depth_at_y row
      ≤ (run g (ops ++ more) (initial_state rs)).stack_depth_at_y row := by
  have h1 : tally_le g (run g ops (initial_state rs)) :=
    run_induct g (tally_le g) (fun s hs => hs)
      (fun s i hs => (tally_tick_mono g hW s i hs).1) ops _ (tally_le_initial g hW0 rs)
  refine ⟨h1 row, ?_⟩
  rw [run_append]
  generalize run g ops (initial_state rs) = s at h1 ⊢
  have h2 := run_induct g
    (fun t => tally_le g t ∧ ∀ r : Int, s.stack_depth_at_y r ≤ t.stack_depth_at_y r)
    (fun t ht => ht)
    (fun t i ht =>
      ⟨(tally_tick_mono g hW t i ht.1).1,
        fun r => le_trans (ht.2 r) ((tally_tick_mono g hW t i ht.1).2 r)⟩)
    more s ⟨h1, fun _ => le_refl _⟩
  exact h2.2 row

theorem C15_tally_capped_monotone_witness :
    0 ≤ OLED_WIDTH ssd1306_128x64 ∧ OLED_WIDTH ssd1306_128x64 ≤ 255 ∧
    ((run ssd1306_128x64 [Op.spawn, Op.tick_all]
      (initial_state (fun _ => 7))).stack_depth_at_y 35 : Int) ≤ OLED_WIDTH ssd1306_128x64 :=
  ⟨by decide, by decide,
    (C15_tally_capped_monotone ssd1306_128x64 (by decide) (by decide) (fun _ => 7)
      [Op.spawn, Op.tick_all] [Op.tick_all] 35).1⟩

/-! ## Flight of one ball -/

/-- The ball of slot `i` after the tick of that slot. -/
theorem update_ball_state_slot (g : Geometry) (s : Sim) (i : Int) :
    (update_ball_state g s i).balls i =
      if (s.balls i).active = true then
        (if FINAL_X g ≤ (s.balls i).x_pos + 1 then
          { after_pin g s i with x_pos := FINAL_X g, active := false }
         else after_pin g s i)
      else s.balls i := by
  cases ha : (s.balls i).active with
  | false => rw [update_ball_state_inactive g s i ha]; simp
  | true =>
    by_cases hx : (s.balls i).x_pos + 1 < FINAL_X g
    · rw [(update_ball_state_fly g s i ha hx).1, if_pos rfl, if_neg (by omega)]
    · rw [(update_ball_state_land g s i ha (by omega)).1, if_pos rfl, if_pos (by omega)]

theorem after_pin_level_eq (g : Geometry) (s : Sim) (i : Int) :
    (after_pin g s i).current_pin_level =
      if (s.balls i).current_pin_level < NUM_PIN_LEVELS ∧
          (s.balls i).x_pos + 1 ≥
            PIN_START_X + (s.balls i).current_pin_level * PIN_X_INCREMENT then
        (s.balls i).current_pin_level + 1
      else (s.balls i).current_pin_level := by
  unfold after_pin pin_step
  dsimp only
  split_ifs <;> first | rfl | (exfalso; tauto)

theorem after_pin_active (g : Geometry) (s : Sim) (i : Int) :
    (after_pin g s i).active = (s.balls i).active := by
  unfold after_pin
  rw [pin_step_active]

theorem pins_passed_succ (k : Int) (hk : 0 ≤ k) :
    pins_passed (k + 1) =
      if pins_passed k < NUM_PIN_LEVELS ∧
          k + 1 ≥ PIN_START_X + pins_passed k * PIN_X_INCREMENT then
        pins_passed k + 1
      else pins_passed k := by
  unfold pins_passed PIN_START_X NUM_PIN_LEVELS PIN_X_INCREMENT
  split_ifs <;> omega

theorem on_track_tick (g : Geometry) (hF : 30 ≤ FINAL_X g) (s : Sim) (i : Int) (k : Nat)
    (h : on_track g k (s.balls i)) :
    on_track g (k + 1) ((update_ball_state g s i).balls i) := by
  unfold on_track at h ⊢
  rw [update_ball_state_slot]
  by_cases hk : (k : Int) < FINAL_X g
  · rw [if_pos hk] at h
    obtain ⟨ha, hx, hl⟩ := h
    rw [if_pos ha]
    have hlev : (after_pin g s i).current_pin_level = pins_passed ((k : Int) + 1) := by
      rw [after_pin_level_eq, pins_passed_succ _ (by omega), hx, hl]
    by_cases hk1 : ((k + 1 : Nat) : Int) < FINAL_X g
    · rw [if_pos hk1, if_neg (by rw [hx]; push_cast at hk1; omega)]
      refine ⟨?_, ?_, ?_⟩
      · rw [after_pin_active]; exact ha
      · rw [after_pin_x_pos, hx]; push_cast; rfl
      · rw [hlev]; push_cast; rfl
    · rw [if_neg hk1, if_pos (by rw [hx]; push_cast at hk1; omega)]
      refine ⟨rfl, rfl, ?_⟩
      show (after_pin g s i).current_pin_level = NUM_PIN_LEVELS
      rw [hlev]
      push_cast at hk1
      unfold pins_passed PIN_START_X NUM_PIN_LEVELS PIN_X_INCREMENT
      split_ifs <;> omega
  · rw [if_neg hk] at h
    obtain ⟨ha, hx, hl⟩ := h
    have hk1 : ¬ (((k + 1 : Nat) : Int) < FINAL_X g) := by push_cast; omega
    rw [if_neg hk1, if_neg (by simp [ha])]
    exact ⟨ha, hx, hl⟩

/-- A property of slot `i` indexed by the number of ticks of that slot: kept by
the ticks of the other slots, advanced by the tick of slot `i`, it is advanced
once by the loop over a list without repetition that holds `i`. -/
theorem ticks_slot_induct (g : Geometry) (i : Nat) (P : Nat → Sim → Prop)
    (hother : ∀ k t (j : Nat), j ≠ i → P k t → P k (update_ball_state g t (j : Int)))
    (hself : ∀ k t, P k t → P (k + 1) (update_ball_state g t (i : Int)))
    (l : List Nat) (hl : l.Nodup) (k : Nat) (s : Sim) (hs : P k s) :
    P (k + (if i ∈ l then 1 else 0))
      (l.foldl (fun (t : Sim) (j : Nat) => update_ball_state g t (j : Int)) s) := by
  induction l generalizing s k with
  | nil => simpa using hs
  | cons a l ih =>
    rw [List.nodup_cons] at hl
    simp only [List.foldl_cons]
    by_cases ha : a = i
    · subst ha
      have h1 := ih hl.2 (k + 1) _ (hself k s hs)
      rw [if_neg hl.1] at h1
      simpa using h1
    · have h1 := ih hl.2 k _ (hother k s a ha hs)
      have hmem : (i ∈ a :: l) ↔ i ∈ l := by
        simp only [List.mem_cons]
        constructor
        · rintro (h | h)
          · exact absurd h.symm ha
          · exact h
        · exact Or.inr
      simp only [hmem]
      exact h1

theorem run_slot_induct (g : Geometry) (i : Nat) (hi : i < 50) (P : Nat → Sim → Prop)
    (hspawn : ∀ k t, index_to_use t ≠ (i : Int) → P k t → P k (add_new_ball g t))
    (hother : ∀ k t (j : Nat), j ≠ i → P k t → P k (update_ball_state g t (j : Int)))
    (hself : ∀ k t, P k t → P (k + 1) (update_ball_state g t (i : Int)))
    (ops : List Op) (k : Nat) (s : Sim) (hno : not_overwritten g (i : Int) ops s)
    (hs : P k s) :
    P (k + ops.count Op.tick_all) (run g ops s) := by
  induction ops generalizing s k with
  | nil => simpa [run] using hs
  | cons op ops ih =>
    cases op with
    | spawn =>
      obtain ⟨h1, h2⟩ := hno
      have := ih k (add_new_ball g s) h2 (hspawn k s h1 hs)
      simpa [run, step] using this
    | tick_all =>
      have hN : MAX_BALLS.toNat = 50 := rfl
      have htick : P (k + 1) (update_all_balls g s) := by
        have := ticks_slot_induct g i P hother hself (List.range MAX_BALLS.toNat)
          (List.nodup_range _) k s hs
        rw [if_pos (by rw [hN]; exact List.mem_range.mpr hi)] at this
        exact this
      have := ih (k + 1) (update_all_balls g s) hno htick
      have hcount : k + (Op.tick_all :: ops).count Op.tick_all
          = k + 1 + ops.count Op.tick_all := by
        rw [List.count_cons_self]; omega
      rw [hcount]
      exact this

theorem add_new_ball_balls_ne (g : Geometry) (s : Sim) (j : Int) (h : index_to_use s ≠ j) :
    (add_new_ball g s).balls j = s.balls j := by
  have h' : j ≠ index_to_use s := fun e => h e.symm
  simp only [add_new_ball, Function.update_noteq h']

theorem clamp_y_int (g : Geometry) (k : Int) (hk : 0 ≤ k) :
    clamp_y g (k : ℚ) = ((min k (OLED_HEIGHT g - 1) : Int) : ℚ) := by
  unfold clamp_y
  have h0 : ¬ ((k : ℚ) < 0) := by
    have : (0 : ℚ) ≤ (k : ℚ) := by exact_mod_cast hk
    exact not_lt.mpr this
  simp only [h0, if_false]
  by_cases h1 : ((k : ℚ) ≥ (OLED_HEIGHT g : ℚ))
  · rw [if_pos h1]
    have : OLED_HEIGHT g ≤ k := by exact_mod_cast h1
    rw [min_eq_right (by omega)]
  · rw [if_neg h1]
    have : k < OLED_HEIGHT g := by
      have : (k : ℚ) < (OLED_HEIGHT g : ℚ) := not_le.mp h1
      exact_mod_cast this
    rw [min_eq_left (by omega)]

theorem y_down_eq (g : Geometry) (hH : 1 ≤ OLED_HEIGHT g) (n : Nat) :
    y_down g 16 (n + 1) = ((min (16 + 3 * ((n : Int) + 1)) (OLED_HEIGHT g - 1) : Int) : ℚ) := by
  induction n with
  | zero =>
    have h := clamp_y_int g 19 (by omega)
    simp only [y_down, VERTICAL_DEFLECTION]
    norm_num at h ⊢
    exact h
  | succ n ih =>
    have h := clamp_y_int g (min (16 + 3 * ((n : Int) + 1)) (OLED_HEIGHT g - 1) + 3)
      (by omega)
    have hstep : y_down g 16 (n + 1 + 1)
        = clamp_y g (y_down g 16 (n + 1) + (((1 : Int) * VERTICAL_DEFLECTION : Int) : ℚ)) := rfl
    rw [hstep, ih]
    have hc : (((min (16 + 3 * ((n : Int) + 1)) (OLED_HEIGHT g - 1) : Int) : ℚ)
        + (((1 : Int) * VERTICAL_DEFLECTION : Int) : ℚ))
        = (((min (16 + 3 * ((n : Int) + 1)) (OLED_HEIGHT g - 1) + 3 : Int)) : ℚ) := by
      simp only [VERTICAL_DEFLECTION]
      push_cast
      ring
    rw [hc, h]
    congr 1
    push_cast
    omega

theorem y_down_final (g : Geometry) (hH : 1 ≤ OLED_HEIGHT g) :
    y_down g 16 11 = ((down_row g : Int) : ℚ) := by
  have h := y_down_eq g hH 10
  rw [show (10 : Nat) + 1 = 11 from rfl] at h
  rw [h]
  congr 1
  unfold down_row
  split_ifs <;> omega

theorem down_row_on_row (g : Geometry) (hH : 1 ≤ OLED_HEIGHT g) :
    on_row g ((down_row g : Int) : ℚ) := by
  refine ⟨down_row g, rfl, ?_, ?_⟩ <;> unfold down_row <;> split_ifs <;> omega

theorem after_pin_y_pos (g : Geometry) (s : Sim) (i : Int) :
    (after_pin g s i).y_pos =
      if (s.balls i).current_pin_level < NUM_PIN_LEVELS ∧
          (s.balls i).x_pos + 1 ≥
            PIN_START_X + (s.balls i).current_pin_level * PIN_X_INCREMENT then
        clamp_y g ((s.balls i).y_pos
          + ((deflection (s.rand_stream 0) * VERTICAL_DEFLECTION : Int) : ℚ))
      else (s.balls i).y_pos := by
  unfold after_pin pin_step
  dsimp only
  split_ifs <;> first | rfl | (exfalso; tauto)

theorem pins_passed_nonneg (k : Int) : 0 ≤ pins_passed k := by
  unfold pins_passed PIN_START_X NUM_PIN_LEVELS PIN_X_INCREMENT
  split_ifs <;> omega

theorem on_track_down_tick (g : Geometry) (hF : 30 ≤ FINAL_X g) (s : Sim) (i : Int) (k : Nat)
    (hr : s.rand_stream 0 % 100 < PROBABILITY_POSITIVE_Y_DEFLECTION_PERCENT)
    (h : on_track_down g k (s.balls i)) :
    on_track_down g (k + 1) ((update_ball_state g s i).balls i) := by
  obtain ⟨ht, hy⟩ := h
  refine ⟨on_track_tick g hF s i k ht, ?_⟩
  rw [update_ball_state_slot]
  cases ha : (s.balls i).active with
  | false =>
    rw [if_neg (by simp)]
    exact hy
  | true =>
    rw [if_pos rfl]
    have hlev0 : 0 ≤ (s.balls i).current_pin_level := by
      unfold on_track at ht
      split_ifs at ht with hk
      · rw [ht.2.2]; exact pins_passed_nonneg _
      · rw [ht.2.2]; decide
    have hd : deflection (s.rand_stream 0) = 1 := by
      unfold deflection
      rw [if_pos hr]
    have hkey : (after_pin g s i).y_pos
        = y_down g 16 (after_pin g s i).current_pin_level.toNat := by
      rw [after_pin_y_pos, after_pin_level_eq]
      split_ifs with hhit
      · have hn : ((s.balls i).current_pin_level + 1).toNat
            = (s.balls i).current_pin_level.toNat + 1 := by omega
        rw [hn, hd, hy]
        rfl
      · exact hy
    split_ifs
    · exact hkey
    · exact hkey

theorem update_ball_state_rand_stream (g : Geometry) (s : Sim) (i : Int) :
    ∃ d : Nat, ∀ n : Nat, (update_ball_state g s i).rand_stream n = s.rand_stream (n + d) := by
  unfold update_ball_state
  dsimp only
  split_ifs
  all_goals first
    | exact ⟨0, fun _ => rfl⟩
    | exact ⟨1, fun _ => rfl⟩

theorem all_draws_positive_tick (g : Geometry) (s : Sim) (i : Int)
    (h : all_draws_positive s) : all_draws_positive (update_ball_state g s i) := by
  obtain ⟨d, hd⟩ := update_ball_state_rand_stream g s i
  intro n
  rw [hd n]
  exact h (n + d)

/-- C12, as stated, fails in its last part: on the 128 x 32 display the ball of
slot 0 of `full_row_state_32` is at the height all positive draws lead to, with
its 11 pins passed; its next tick lands it, and the tally of that row is not
incremented. -/
theorem C12_counterexample :
    START_Y ssd1306_128x32 = 16 ∧
    (full_row_state_32.balls 0).y_pos = ((down_row ssd1306_128x32 : Int) : ℚ) ∧
    (full_row_state_32.balls 0).current_pin_level = NUM_PIN_LEVELS ∧
    (full_row_state_32.balls 0).active = true ∧
    ((update_ball_state ssd1306_128x32 full_row_state_32 0).balls 0).active = false ∧
    (update_ball_state ssd1306_128x32 full_row_state_32 0).stack_depth_at_y
        (down_row ssd1306_128x32)
      = full_row_state_32.stack_depth_at_y (down_row ssd1306_128x32) := by
  have ha : (full_row_state_32.balls 0).active = true := by decide
  have hx : FINAL_X ssd1306_128x32 ≤ (full_row_state_32.balls 0).x_pos + 1 := by decide
  have hrowv : down_row ssd1306_128x32 = 31 := by decide
  obtain ⟨hb, ht, _, _⟩ := update_ball_state_land ssd1306_128x32 full_row_state_32 0 ha hx
  have hy : (after_pin ssd1306_128x32 full_row_state_32 0).y_pos = 31 := by
    simp [after_pin, pin_step, full_row_state_32, NUM_PIN_LEVELS]
  have hrow : final_y ssd1306_128x32 (31 : ℚ) = 31 := by
    have := final_y_on_row ssd1306_128x32 (31 : ℚ) ⟨31, by norm_num, by decide, by decide⟩
    exact_mod_cast this
  rw [hy, hrow] at ht
  have hsat : ¬ ((full_row_state_32.stack_depth_at_y 31 : Int) < OLED_WIDTH ssd1306_128x32) := by
    decide
  rw [if_neg hsat] at ht
  refine ⟨by decide, ?_, by decide, ha, by rw [hb], by rw [ht]⟩
  rw [hrowv]
  simp [full_row_state_32]

/-- C12 (amended): a ball at column `START_X`, height 16 and pin level 0, with every
draw of the random stream positive and `VERTICAL_DEFLECTION = 3`,
`NUM_PIN_LEVELS = 11`: once it has passed the 11 pin columns (30 ticks or
more) its `y_pos` is `16 + 11 * 3 = 49` when `OLED_HEIGHT ≥ 50` and
`OLED_HEIGHT - 1` when `OLED_HEIGHT < 50`; the tick in which it lands makes it
inactive at that height and counts it in that row of the tally (unless the
row is saturated) and in the counter. -/
theorem C12_all_draws_positive (g : Geometry)
    (hH : 1 ≤ OLED_HEIGHT g) (hF : 30 ≤ FINAL_X g)
    (s : Sim) (i : Int) (hi0 : 0 ≤ i) (hi1 : i < MAX_BALLS)
    (hb : s.balls i = { x_pos := START_X, y_pos := 16, current_pin_level := 0, active := true })
    (hpos : all_draws_positive s)
    (ops : List Op) (hno : not_overwritten g i ops s) :
    (50 ≤ OLED_HEIGHT g → down_row g = 16 + 11 * 3) ∧
    (OLED_HEIGHT g < 50 → down_row g = OLED_HEIGHT g - 1) ∧
    (30 ≤ ops.count Op.tick_all →
      ((run g ops s).balls i).current_pin_level = NUM_PIN_LEVELS ∧
      ((run g ops s).balls i).y_pos = ((down_row g : Int) : ℚ)) ∧
    (∀ t : Sim, t.balls i = (run g ops s).balls i →
      t.rand_stream 0 % 100 < PROBABILITY_POSITIVE_Y_DEFLECTION_PERCENT →
      ((ops.count Op.tick_all : Nat) : Int) + 1 = FINAL_X g →
      (t.balls i).active = true ∧
      ((update_ball_state g t i).balls i).active = false ∧
      ((update_ball_state g t i).balls i).y_pos = ((down_row g : Int) : ℚ) ∧
      (update_ball_state g t i).stack_depth_at_y =
        (if (t.stack_depth_at_y (down_row g) : Int) < OLED_WIDTH g then
          Function.update t.stack_depth_at_y (down_row g)
            ((t.stack_depth_at_y (down_row g) + 1) % 256)
        else t.stack_depth_at_y) ∧
      (update_ball_state g t i).total_balls_dropped_count
        = (t.total_balls_dropped_count + 1) % 2 ^ 32) := by
  have hM : MAX_BALLS = 50 := rfl
  rw [hM] at hi1
  have hidx : ((i.toNat : Nat) : Int) = i := Int.toNat_of_nonneg hi0
  have hstart : on_track_down g 0 (s.balls i) := by
    rw [hb]
    refine ⟨?_, rfl⟩
    unfold on_track
    have h0 : ((0 : Nat) : Int) < FINAL_X g := by push_cast; omega
    rw [if_pos h0]
    have hp : pins_passed ((0 : Nat) : Int) = 0 := by decide
    exact ⟨rfl, rfl, hp.symm⟩
  have hrun := run_slot_induct g i.toNat (by omega)
    (fun k t => all_draws_positive t ∧ on_track_down g k (t.balls i))
    (fun k t hne h => by
      rw [hidx] at hne
      refine ⟨h.1, ?_⟩
      rw [add_new_ball_balls_ne g t _ hne]
      exact h.2)
    (fun k t j hj h => by
      refine ⟨all_draws_positive_tick g t _ h.1, ?_⟩
      rw [update_ball_state_balls_ne g t (j : Int) i (by omega)]
      exact h.2)
    (fun k t h => by
      rw [hidx]
      exact ⟨all_draws_positive_tick g t _ h.1, on_track_down_tick g hF t i k (h.1 0) h.2⟩)
    ops 0 s (by rw [hidx]; exact hno) ⟨hpos, hstart⟩
  rw [Nat.zero_add] at hrun
  obtain ⟨_, htrack, hy⟩ := hrun
  have hlevel11 : ∀ b : BallState, ∀ k : Nat, on_track g k b → 30 ≤ k →
      b.current_pin_level = NUM_PIN_LEVELS := by
    intro b k hk h30
    unfold on_track at hk
    split_ifs at hk
    · rw [hk.2.2]
      unfold pins_passed PIN_START_X NUM_PIN_LEVELS PIN_X_INCREMENT
      split_ifs <;> omega
    · exact hk.2.2
  have hN : NUM_PIN_LEVELS.toNat = 11 := rfl
  refine ⟨?_, ?_, ?_, ?_⟩
  · intro h; unfold down_row; rw [if_pos h]
  · intro h; unfold down_row; rw [if_neg (by omega)]
  · intro h30
    have hl := hlevel11 _ _ htrack h30
    refine ⟨hl, ?_⟩
    rw [hy, hl, hN]
    exact y_down_final g hH
  · intro t ht hr hk
    have htd : on_track_down g (ops.count Op.tick_all) (t.balls i) := by
      rw [ht]; exact ⟨htrack, hy⟩
    have hact : (t.balls i).active = true ∧ (t.balls i).x_pos + 1 = FINAL_X g := by
      have h1 := htd.1
      unfold on_track at h1
      rw [if_pos (by omega)] at h1
      exact ⟨h1.1, by rw [h1.2.1]; exact hk⟩
    obtain ⟨hnext, hynext⟩ := on_track_down_tick g hF t i _ hr htd
    have hl := hlevel11 _ _ hnext (by omega)
    rw [hl, hN, y_down_final g hH] at hynext
    obtain ⟨hb2, htal, hcnt, _⟩ := update_ball_state_land g t i hact.1 (by omega)
    have hya : (after_pin g t i).y_pos = ((down_row g : Int) : ℚ) := by
      rw [hb2] at hynext
      exact hynext
    have hrow : final_y g (after_pin g t i).y_pos = down_row g := by
      rw [hya]
      have := final_y_on_row g ((down_row g : Int) : ℚ) (down_row_on_row g hH)
      exact_mod_cast this
    refine ⟨hact.1, ?_, hynext, ?_, hcnt⟩
    · rw [hb2]
    · rw [htal, hrow]

theorem not_overwritten_ticks (g : Geometry) (i : Int) (n : Nat) (s : Sim) :
    not_overwritten g i (List.replicate n Op.tick_all) s := by
  induction n generalizing s with
  | zero => trivial
  | succ n ih => exact ih (update_all_balls g s)

theorem spawned_ball_128x32 :
    (add_new_ball ssd1306_128x32 (initial_state (fun _ => 7))).balls 0
      = { x_pos := START_X, y_pos := 16, current_pin_level := 0, active := true } := by
  have hidx : index_to_use (initial_state (fun _ => 7)) = 0 := by decide
  have hy : START_Y ssd1306_128x32 = 16 := by decide
  simp only [add_new_ball, hidx, Function.update_same, hy]
  norm_num

theorem C12_all_draws_positive_witness :
    1 ≤ OLED_HEIGHT ssd1306_128x32 ∧ 30 ≤ FINAL_X ssd1306_128x32 ∧
    ((run ssd1306_128x32 (List.replicate 30 Op.tick_all)
      (add_new_ball ssd1306_128x32 (initial_state (fun _ => 7)))).balls 0).y_pos
        = ((down_row ssd1306_128x32 : Int) : ℚ) :=
  ⟨by decide, by decide,
    ((C12_all_draws_positive ssd1306_128x32 (by decide) (by decide)
      (add_new_ball ssd1306_128x32 (initial_state (fun _ => 7))) 0 (by decide) (by decide)
      spawned_ball_128x32 (fun _ => (by decide : 7 % 100 < 50))
      (List.replicate 30 Op.tick_all)
      (not_overwritten_ticks _ _ _ _)).2.2.1 (by decide)).2⟩

/-! ## Pixels -/

theorem byte_idx_inj (w p x q z : Int) (hx0 : 0 ≤ x) (hx1 : x < w) (hz0 : 0 ≤ z) (hz1 : z < w)
    (h : p * w + x = q * w + z) : p = q ∧ x = z := by
  have h1 : (p * w + x) % w = x := by
    rw [Int.add_comm, Int.add_mul_emod_self]
    exact Int.emod_eq_of_lt hx0 hx1
  have h2 : (q * w + z) % w = z := by
    rw [Int.add_comm, Int.add_mul_emod_self]
    exact Int.emod_eq_of_lt hz0 hz1
  have hxz : x = z := by rw [← h1, ← h2, h]
  subst hxz
  have hw : w ≠ 0 := by omega
  have : p * w = q * w := by omega
  exact ⟨Int.eq_of_mul_eq_mul_right hw this, rfl⟩

theorem pixel_some (g : Geometry) (b : Int → Nat) (x y : Int) :
    pixel g (some b) x y = (b (y / 8 * OLED_WIDTH g + x)).testBit (y % 8).toNat := rfl

theorem set_pixel_internal_some (g : Geometry) (b : Int → Nat) (x y : Int) (set : Bool) :
    _set_pixel_internal g (some b) x y set =
      if x < 0 ∨ x ≥ OLED_WIDTH g ∨ y < 0 ∨ y ≥ OLED_HEIGHT g then some b
      else if (y.tdiv 8) * OLED_WIDTH g + x ≥ g.ssd1306_buffer_length then some b
      else if set then
        some (Function.update b ((y.tdiv 8) * OLED_WIDTH g + x)
          ((b ((y.tdiv 8) * OLED_WIDTH g + x) ||| (2 ^ (y.tmod 8).toNat % 256)) % 256))
      else
        some (Function.update b ((y.tdiv 8) * OLED_WIDTH g + x)
          ((b ((y.tdiv 8) * OLED_WIDTH g + x) &&& (255 ^^^ (2 ^ (y.tmod 8).toNat % 256))) % 256)) :=
  rfl

/-- The effect of `_set_pixel_internal` on the pixels of the display. -/
theorem set_pixel_sets_to (g : Geometry) (hg : page_geometry g) (buf : Buffer)
    (hb : buffer_ok buf) (x y : Int) (v : Bool) :
    sets_to g v buf (_set_pixel_internal g buf x y v) (fun px py => px = x ∧ py = y) := by
  obtain ⟨b, rfl, hbytes⟩ := hb
  by_cases hon : x < 0 ∨ x ≥ OLED_WIDTH g ∨ y < 0 ∨ y ≥ OLED_HEIGHT g
  · have hres : _set_pixel_internal g (some b) x y v = some b := by
      rw [set_pixel_internal_some, if_pos hon]
    rw [hres]
    refine ⟨⟨b, rfl, hbytes⟩, fun px py hp => ⟨?_, fun _ => rfl⟩⟩
    rintro ⟨rfl, rfl⟩
    unfold on_screen at hp
    omega
  · have hx0 : 0 ≤ x := by omega
    have hx1 : x < OLED_WIDTH g := by omega
    have hy0 : 0 ≤ y := by omega
    have hy1 : y < OLED_HEIGHT g := by omega
    have hidx := byte_idx_in_buffer g x y hx0 hx1 hy0 hy1 hg.1 hg.2
    have hd : y.tdiv 8 = y / 8 := Int.tdiv_eq_ediv hy0 (by omega)
    have hm : y.tmod 8 = y % 8 := Int.tmod_eq_emod hy0 (by omega)
    have hk0 : (y % 8).toNat < 8 := by omega
    have hguard : ¬ (y / 8 * OLED_WIDTH g + x ≥ g.ssd1306_buffer_length) := by omega
    have hres : ∃ nb : Nat, nb < 256 ∧
        (∀ k : Nat, nb.testBit k
          = if k = (y % 8).toNat then v else (b (y / 8 * OLED_WIDTH g + x)).testBit k) ∧
        _set_pixel_internal g (some b) x y v
          = some (Function.update b (y / 8 * OLED_WIDTH g + x) nb) := by
      rw [set_pixel_internal_some]
      simp only [hd, hm]
      rw [if_neg hon, if_neg hguard]
      cases v with
      | true =>
        rw [if_pos rfl]
        exact ⟨_, Nat.mod_lt _ (by norm_num),
          fun k => set_bit_testBit _ _ k (hbytes _) hk0, rfl⟩
      | false =>
        rw [if_neg (by simp)]
        exact ⟨_, Nat.mod_lt _ (by norm_num),
          fun k => clear_bit_testBit _ _ k (hbytes _) hk0, rfl⟩
    obtain ⟨nb, hnb, hbits, hset⟩ := hres
    rw [hset]
    refine ⟨⟨_, rfl, fun i => ?_⟩, fun px py hp => ?_⟩
    · by_cases hi : i = y / 8 * OLED_WIDTH g + x
      · rw [hi, Function.update_same]; exact hnb
      · rw [Function.update_noteq hi]; exact hbytes i
    · obtain ⟨hp0, hp1, hp2, hp3⟩ := hp
      rw [pixel_some, pixel_some]
      by_cases hi : py / 8 * OLED_WIDTH g + px = y / 8 * OLED_WIDTH g + x
      · obtain ⟨hpg, hpx⟩ := byte_idx_inj _ _ _ _ _ hp0 hp1 hx0 hx1 hi
        rw [hi, Function.update_same, hbits]
        constructor
        · rintro ⟨_, rfl⟩
          rw [if_pos rfl]
        · intro hne
          have : (py % 8).toNat ≠ (y % 8).toNat := by
            intro hbit
            apply hne
            exact ⟨hpx, by omega⟩
          rw [if_neg this]
      · rw [Function.update_noteq hi]
        constructor
        · rintro ⟨rfl, rfl⟩
          exact absurd rfl hi
        · intro _; rfl

theorem sets_to_refl (g : Geometry) (v : Bool) (buf : Buffer) (hb : buffer_ok buf) :
    sets_to g v buf buf (fun _ _ => False) :=
  ⟨hb, fun _ _ _ => ⟨fun h => absurd h (by simp), fun _ => rfl⟩⟩

theorem sets_to_trans (g : Geometry) (v : Bool) (b0 b1 b2 : Buffer)
    (S1 S2 : Int → Int → Prop)
    (h1 : sets_to g v b0 b1 S1) (h2 : sets_to g v b1 b2 S2) :
    sets_to g v b0 b2 (fun px py => S1 px py ∨ S2 px py) := by
  refine ⟨h2.1, fun px py hp => ⟨?_, ?_⟩⟩
  · intro h
    by_cases hs2 : S2 px py
    · exact (h2.2 px py hp).1 hs2
    · rw [(h2.2 px py hp).2 hs2]
      rcases h with h | h
      · exact (h1.2 px py hp).1 h
      · exact absurd h hs2
  · intro h
    have hs1 : ¬ S1 px py := fun h' => h (Or.inl h')
    have hs2 : ¬ S2 px py := fun h' => h (Or.inr h')
    rw [(h2.2 px py hp).2 hs2, (h1.2 px py hp).2 hs1]

theorem sets_to_congr (g : Geometry) (v : Bool) (b0 b1 : Buffer) (S T : Int → Int → Prop)
    (h : sets_to g v b0 b1 S)
    (hST : ∀ px py : Int, on_screen g px py → (S px py ↔ T px py)) :
    sets_to g v b0 b1 T :=
  ⟨h.1, fun px py hp =>
    ⟨fun ht => (h.2 px py hp).1 ((hST px py hp).mpr ht),
      fun ht => (h.2 px py hp).2 (fun hs => ht ((hST px py hp).mp hs))⟩⟩

/-- A loop over a list whose every step sets a region of pixels to `v` sets the
union of the regions to `v`. -/
theorem foldl_sets_to (g : Geometry) (v : Bool) {α : Type} (f : Buffer → α → Buffer)
    (S : α → Int → Int → Prop)
    (hstep : ∀ (b : Buffer) (a : α), buffer_ok b → sets_to g v b (f b a) (S a))
    (l : List α) (buf : Buffer) (hb : buffer_ok buf) :
    sets_to g v buf (l.foldl f buf) (fun px py => ∃ a ∈ l, S a px py) := by
  induction l generalizing buf with
  | nil =>
    exact sets_to_congr g v _ _ _ _ (sets_to_refl g v buf hb) (fun _ _ _ => by simp)
  | cons a l ih =>
    have h1 := hstep buf a hb
    have h2 := ih (f buf a) h1.1
    rw [List.foldl_cons]
    refine sets_to_congr g v _ _ _ _ (sets_to_trans g v _ _ _ _ _ h1 h2) ?_
    intro px py _
    simp only [List.mem_cons, exists_eq_or_imp]

/-! ## Lines -/

theorem hline_sets_to (g : Geometry) (hg : page_geometry g) (buf : Buffer) (hb : buffer_ok buf)
    (x_start y width : Int) (v : Bool) :
    sets_to g v buf (oled_draw_hline g buf x_start y width v)
      (fun px py => py = y ∧ x_start ≤ px ∧ px < x_start + width) := by
  unfold oled_draw_hline
  by_cases hy : y < 0 ∨ y ≥ OLED_HEIGHT g
  · rw [if_pos hy]
    refine sets_to_congr g v _ _ _ _ (sets_to_refl g v buf hb) ?_
    intro px py hp
    unfold on_screen at hp
    constructor
    · intro h; exact absurd h (by simp)
    · rintro ⟨rfl, _, _⟩; omega
  · rw [if_neg hy]
    have h := foldl_sets_to g v
      (fun (b : Buffer) (k : Nat) => _set_pixel_internal g b (x_start + (k : Int)) y v)
      (fun (k : Nat) px py => px = x_start + (k : Int) ∧ py = y)
      (fun b k hbk => set_pixel_sets_to g hg b hbk _ _ v)
      (List.range width.toNat) buf hb
    refine sets_to_congr g v _ _ _ _ h ?_
    intro px py _
    constructor
    · rintro ⟨k, hk, rfl, rfl⟩
      rw [List.mem_range] at hk
      omega
    · rintro ⟨rfl, h1, h2⟩
      refine ⟨(px - x_start).toNat, ?_, ?_, rfl⟩
      · rw [List.mem_range]; omega
      · omega

theorem vline_sets_to (g : Geometry) (hg : page_geometry g) (buf : Buffer) (hb : buffer_ok buf)
    (x y_start height : Int) (v : Bool) :
    sets_to g v buf (oled_draw_vline g buf x y_start height v)
      (fun px py => px = x ∧ y_start ≤ py ∧ py < y_start + height) := by
  unfold oled_draw_vline
  by_cases hx : x < 0 ∨ x ≥ OLED_WIDTH g
  · rw [if_pos hx]
    refine sets_to_congr g v _ _ _ _ (sets_to_refl g v buf hb) ?_
    intro px py hp
    unfold on_screen at hp
    constructor
    · intro h; exact absurd h (by simp)
    · rintro ⟨rfl, _, _⟩; omega
  · rw [if_neg hx]
    have h := foldl_sets_to g v
      (fun (b : Buffer) (k : Nat) => _set_pixel_internal g b x (y_start + (k : Int)) v)
      (fun (k : Nat) px py => px = x ∧ py = y_start + (k : Int))
      (fun b k hbk => set_pixel_sets_to g hg b hbk _ _ v)
      (List.range height.toNat) buf hb
    refine sets_to_congr g v _ _ _ _ h ?_
    intro px py _
    constructor
    · rintro ⟨k, hk, rfl, rfl⟩
      rw [List.mem_range] at hk
      omega
    · rintro ⟨rfl, h1, h2⟩
      refine ⟨(py - y_start).toNat, ?_, rfl, ?_⟩
      · rw [List.mem_range]; omega
      · omega

theorem foldl_range_zero {α : Type} (f : α → Nat → α) (a : α) (n : Int) (hn : n ≤ 0) :
    (List.range n.toNat).foldl f a = a := by
  have : n.toNat = 0 := by omega
  rw [this]
  rfl

/-- C16: on a page-organised display with a buffer of bytes, `oled_draw_hline`
gives the value asked for to the pixels `(x, y)` of the display with
`x_start ≤ x < x_start + width` and keeps every other pixel; it returns the
buffer untouched when `y` is off the display or `width ≤ 0`.  `oled_draw_vline`
does the same along the column `x` for `y_start ≤ y < y_start + height`. -/
theorem C16_lines_visible_part (g : Geometry) (b : Int → Nat) (p q n : Int) (v : Bool)
    (hH : (8 : Int) ∣ OLED_HEIGHT g)
    (hlen : g.ssd1306_buffer_length = (OLED_WIDTH g * OLED_HEIGHT g).tdiv 8)
    (hbytes : ∀ i : Int, b i < 256) :
    (∃ b' : Int → Nat, oled_draw_hline g (some b) p q n v = some b' ∧
      ∀ px py : Int, on_screen g px py →
        pixel g (some b') px py
          = if py = q ∧ p ≤ px ∧ px < p + n then v else pixel g (some b) px py) ∧
    ((q < 0 ∨ OLED_HEIGHT g ≤ q ∨ n ≤ 0) → oled_draw_hline g (some b) p q n v = some b) ∧
    (∃ b' : Int → Nat, oled_draw_vline g (some b) p q n v = some b' ∧
      ∀ px py : Int, on_screen g px py →
        pixel g (some b') px py
          = if px = p ∧ q ≤ py ∧ py < q + n then v else pixel g (some b) px py) ∧
    ((p < 0 ∨ OLED_WIDTH g ≤ p ∨ n ≤ 0) → oled_draw_vline g (some b) p q n v = some b) := by
  have hg : page_geometry g := ⟨hH, hlen⟩
  have hb : buffer_ok (some b) := ⟨b, rfl, hbytes⟩
  refine ⟨?_, ?_, ?_, ?_⟩
  · obtain ⟨⟨b', hb', _⟩, hpix⟩ := hline_sets_to g hg (some b) hb p q n v
    refine ⟨b', hb', fun px py hp => ?_⟩
    rw [← hb']
    by_cases hS : py = q ∧ p ≤ px ∧ px < p + n
    · rw [if_pos hS]; exact (hpix px py hp).1 hS
    · rw [if_neg hS]; exact (hpix px py hp).2 hS
  · intro h
    unfold oled_draw_hline
    by_cases hy : q < 0 ∨ q ≥ OLED_HEIGHT g
    · rw [if_pos hy]
    · rw [if_neg hy]
      exact foldl_range_zero _ _ n (by omega)
  · obtain ⟨⟨b', hb', _⟩, hpix⟩ := vline_sets_to g hg (some b) hb p q n v
    refine ⟨b', hb', fun px py hp => ?_⟩
    rw [← hb']
    by_cases hS : px = p ∧ q ≤ py ∧ py < q + n
    · rw [if_pos hS]; exact (hpix px py hp).1 hS
    · rw [if_neg hS]; exact (hpix px py hp).2 hS
  · intro h
    unfold oled_draw_vline
    by_cases hx : p < 0 ∨ p ≥ OLED_WIDTH g
    · rw [if_pos hx]
    · rw [if_neg hx]
      exact foldl_range_zero _ _ n (by omega)

theorem C16_lines_visible_part_witness :
    (8 : Int) ∣ OLED_HEIGHT ssd1306_128x64 ∧
    (∃ b' : Int → Nat,
      oled_draw_hline ssd1306_128x64 (some (fun _ => 0)) (-3) 12 10 true = some b' ∧
      ∀ px py : Int, on_screen ssd1306_128x64 px py →
        pixel ssd1306_128x64 (some b') px py
          = if py = 12 ∧ -3 ≤ px ∧ px < -3 + 10 then true
            else pixel ssd1306_128x64 (some (fun _ => 0)) px py) :=
  ⟨by decide,
    (C16_lines_visible_part ssd1306_128x64 (fun _ => 0) (-3) 12 10 true (by decide) (by decide)
      (fun _ => Nat.zero_lt_succ 255)).1⟩

/-! ## The simulation view -/

theorem clear_buffer_dark (g : Geometry) (hg : page_geometry g) (b : Int → Nat)
    (hbytes : ∀ i : Int, b i < 256) :
    buffer_ok (oled_clear_buffer g (some b)) ∧
    ∀ px py : Int, on_screen g px py → pixel g (oled_clear_buffer g (some b)) px py = false := by
  have hc : oled_clear_buffer g (some b)
      = some (fun i => if 0 ≤ i ∧ i < g.ssd1306_buffer_length then 0 else b i) := rfl
  rw [hc]
  refine ⟨⟨_, rfl, fun i => ?_⟩, fun px py hp => ?_⟩
  · dsimp only
    split_ifs
    · omega
    · exact hbytes i
  · obtain ⟨h0, h1, h2, h3⟩ := hp
    have hidx := byte_idx_in_buffer g px py h0 h1 h2 h3 hg.1 hg.2
    rw [pixel_some, if_pos hidx]
    exact Nat.zero_testBit _

theorem stack_row_loop_sets_to (g : Geometry) (hg : page_geometry g) (y : Int) (r h : Nat)
    (buf : Buffer) (hb : buffer_ok buf) :
    sets_to g true buf (stack_row_loop g y r h buf)
      (fun px py => py = y ∧ ∃ k : Nat, h ≤ k ∧ k < h + r ∧ px = OLED_WIDTH g - 1 - (k : Int)) := by
  induction r generalizing h buf with
  | zero =>
    refine sets_to_congr g true _ _ _ _ (sets_to_refl g true buf hb) ?_
    intro px py _
    constructor
    · intro hf; exact absurd hf (by simp)
    · rintro ⟨_, k, h1, h2, _⟩; omega
  | succ r ih =>
    by_cases hx : (OLED_WIDTH g - 1) - (h : Int) ≥ 0
    · have hstep : stack_row_loop g y (r + 1) h buf
          = stack_row_loop g y r (h + 1)
              (oled_set_pixel g buf ((OLED_WIDTH g - 1) - (h : Int)) y true) := by
        simp only [stack_row_loop]
        rw [if_pos hx]
      rw [hstep]
      have h1 := set_pixel_sets_to g hg buf hb ((OLED_WIDTH g - 1) - (h : Int)) y true
      have h2 := ih (h + 1) _ h1.1
      refine sets_to_congr g true _ _ _ _ (sets_to_trans g true _ _ _ _ _ h1 h2) ?_
      intro px py _
      constructor
      · rintro (⟨rfl, rfl⟩ | ⟨rfl, k, hk1, hk2, rfl⟩)
        · exact ⟨rfl, h, le_refl _, by omega, rfl⟩
        · exact ⟨rfl, k, by omega, by omega, rfl⟩
      · rintro ⟨rfl, k, hk1, hk2, rfl⟩
        by_cases hkh : k = h
        · left; subst hkh; exact ⟨rfl, rfl⟩
        · right; exact ⟨rfl, k, by omega, by omega, rfl⟩
    · have hstep : stack_row_loop g y (r + 1) h buf = buf := by
        simp only [stack_row_loop]
        rw [if_neg hx]
      rw [hstep]
      refine sets_to_congr g true _ _ _ _ (sets_to_refl g true buf hb) ?_
      intro px py hp
      unfold on_screen at hp
      constructor
      · intro hf; exact absurd hf (by simp)
      · rintro ⟨_, k, h1, h2, rfl⟩; omega

theorem draw_ball_sets_to (g : Geometry) (hg : page_geometry g) (s : Sim) (buf : Buffer)
    (hb : buffer_ok buf) (i : Int) :
    sets_to g true buf (draw_ball g s buf i)
      (fun px py => (s.balls i).active = true ∧ px = (s.balls i).x_pos ∧
        py = float_to_int ((s.balls i).y_pos + 1 / 2)) := by
  unfold draw_ball
  by_cases ha : (s.balls i).active = true
  · rw [if_pos ha]
    by_cases hin : (s.balls i).x_pos ≥ 0 ∧ (s.balls i).x_pos < OLED_WIDTH g ∧
        float_to_int ((s.balls i).y_pos + 1 / 2) ≥ 0 ∧
        float_to_int ((s.balls i).y_pos + 1 / 2) < OLED_HEIGHT g
    · rw [if_pos hin]
      refine sets_to_congr g true _ _ _ _ (set_pixel_sets_to g hg buf hb _ _ true) ?_
      intro px py _
      constructor
      · rintro ⟨h1, h2⟩; exact ⟨ha, h1, h2⟩
      · rintro ⟨_, h1, h2⟩; exact ⟨h1, h2⟩
    · rw [if_neg hin]
      refine sets_to_congr g true _ _ _ _ (sets_to_refl g true buf hb) ?_
      intro px py hp
      unfold on_screen at hp
      constructor
      · intro hf; exact absurd hf (by simp)
      · rintro ⟨_, rfl, rfl⟩
        exact absurd ⟨hp.1, hp.2.1, hp.2.2.1, hp.2.2.2⟩ hin
  · rw [if_neg ha]
    refine sets_to_congr g true _ _ _ _ (sets_to_refl g true buf hb) ?_
    intro px py _
    constructor
    · intro hf; exact absurd hf (by simp)
    · rintro ⟨h, _, _⟩; exact absurd h ha

theorem float_to_int_round (y : ℚ) (hy : 0 ≤ y) : float_to_int (y + 1 / 2) = ⌊y + 1 / 2⌋ := by
  unfold float_to_int
  rw [if_pos (by linarith)]

/-- C19: on a page-organised display with a buffer of bytes, and active balls
whose heights are whole rows of the display (as in every state a run
reaches), after `render_galton_board` a pixel `(x, y)` of the display is lit
exactly when `x ≥ OLED_WIDTH - stack_depth_at_y[y]` or an active ball of the
pool has `x_pos = x` and its `y_pos` rounded half up, which is `y_pos`
itself, equal to `y`. -/
theorem C19_board_pixels (g : Geometry) (s : Sim) (b : Int → Nat)
    (hH : (8 : Int) ∣ OLED_HEIGHT g)
    (hlen : g.ssd1306_buffer_length = (OLED_WIDTH g * OLED_HEIGHT g).tdiv 8)
    (hbytes : ∀ i : Int, b i < 256)
    (hrows : ∀ i : Int, (s.balls i).active = true → on_row g (s.balls i).y_pos) :
    ∃ b' : Int → Nat, render_galton_board g s (some b) = some b' ∧
      ∀ px py : Int, on_screen g px py →
        (pixel g (some b') px py = true ↔
          (px ≥ OLED_WIDTH g - (s.stack_depth_at_y py : Int) ∨
            ∃ i : Nat, (i : Int) < MAX_BALLS ∧ (s.balls (i : Int)).active = true ∧
              (s.balls (i : Int)).x_pos = px ∧ ⌊(s.balls (i : Int)).y_pos + 1 / 2⌋ = py)) := by
  have hg : page_geometry g := ⟨hH, hlen⟩
  obtain ⟨hc_ok, hc_dark⟩ := clear_buffer_dark g hg b hbytes
  have hbars := foldl_sets_to g true
    (fun (bf : Buffer) (y : Nat) =>
      stack_row_loop g (y : Int) (s.stack_depth_at_y (y : Int)) 0 bf)
    (fun (y : Nat) px py => py = (y : Int) ∧
      ∃ k : Nat, 0 ≤ k ∧ k < 0 + s.stack_depth_at_y (y : Int) ∧ px = OLED_WIDTH g - 1 - (k : Int))
    (fun bf y hbf => stack_row_loop_sets_to g hg _ _ 0 bf hbf)
    (List.range (OLED_HEIGHT g).toNat) _ hc_ok
  have hballs := foldl_sets_to g true
    (fun (bf : Buffer) (i : Nat) => draw_ball g s bf (i : Int))
    (fun (i : Nat) px py => (s.balls (i : Int)).active = true ∧ px = (s.balls (i : Int)).x_pos ∧
      py = float_to_int ((s.balls (i : Int)).y_pos + 1 / 2))
    (fun bf i hbf => draw_ball_sets_to g hg s bf hbf _)
    (List.range MAX_BALLS.toNat) _ hbars.1
  have hrender : render_galton_board g s (some b)
      = (List.range MAX_BALLS.toNat).foldl
          (fun (bf : Buffer) (i : Nat) => draw_ball g s bf (i : Int))
          ((List.range (OLED_HEIGHT g).toNat).foldl
            (fun (bf : Buffer) (y : Nat) =>
              stack_row_loop g (y : Int) (s.stack_depth_at_y (y : Int)) 0 bf)
            (oled_clear_buffer g (some b))) := rfl
  obtain ⟨⟨b', hb', _⟩, hpix⟩ := hballs
  refine ⟨b', by rw [hrender, hb'], fun px py hp => ?_⟩
  rw [← hb']
  have hN : MAX_BALLS.toNat = 50 := rfl
  have hM : MAX_BALLS = 50 := rfl
  obtain ⟨hp0, hp1, hp2, hp3⟩ := hp
  have hp' : on_screen g px py := ⟨hp0, hp1, hp2, hp3⟩
  have hbar : (∃ y ∈ List.range (OLED_HEIGHT g).toNat, py = (y : Int) ∧
      ∃ k : Nat, 0 ≤ k ∧ k < 0 + s.stack_depth_at_y (y : Int) ∧ px = OLED_WIDTH g - 1 - (k : Int))
      ↔ px ≥ OLED_WIDTH g - (s.stack_depth_at_y py : Int) := by
    constructor
    · rintro ⟨y, _, rfl, k, _, hk, rfl⟩
      omega
    · intro h
      refine ⟨py.toNat, List.mem_range.mpr (by omega), by omega, (OLED_WIDTH g - 1 - px).toNat,
        Nat.zero_le _, ?_, by omega⟩
      have : ((py.toNat : Nat) : Int) = py := Int.toNat_of_nonneg hp2
      rw [this]
      omega
  have hball : (∃ i ∈ List.range MAX_BALLS.toNat, (s.balls (i : Int)).active = true ∧
      px = (s.balls (i : Int)).x_pos ∧ py = float_to_int ((s.balls (i : Int)).y_pos + 1 / 2))
      ↔ ∃ i : Nat, (i : Int) < MAX_BALLS ∧ (s.balls (i : Int)).active = true ∧
          (s.balls (i : Int)).x_pos = px ∧ ⌊(s.balls (i : Int)).y_pos + 1 / 2⌋ = py := by
    constructor
    · rintro ⟨i, hi, ha, hx, hyr⟩
      rw [hN, List.mem_range] at hi
      rw [float_to_int_round _ (on_row_nonneg g _ (hrows _ ha))] at hyr
      exact ⟨i, by rw [hM]; omega, ha, hx.symm, hyr.symm⟩
    · rintro ⟨i, hi, ha, hx, hyr⟩
      rw [hM] at hi
      refine ⟨i, by rw [hN, List.mem_range]; omega, ha, hx.symm, ?_⟩
      rw [float_to_int_round _ (on_row_nonneg g _ (hrows _ ha))]
      exact hyr.symm
  rw [← hbar, ← hball]
  constructor
  · intro hlit
    by_contra hnot
    have h1 : ¬ (∃ i ∈ List.range MAX_BALLS.toNat, (s.balls (i : Int)).active = true ∧
        px = (s.balls (i : Int)).x_pos ∧
        py = float_to_int ((s.balls (i : Int)).y_pos + 1 / 2)) := fun h => hnot (Or.inr h)
    have h2 : ¬ (∃ y ∈ List.range (OLED_HEIGHT g).toNat, py = (y : Int) ∧
        ∃ k : Nat, 0 ≤ k ∧ k < 0 + s.stack_depth_at_y (y : Int) ∧
          px = OLED_WIDTH g - 1 - (k : Int)) := fun h => hnot (Or.inl h)
    rw [(hpix px py hp').2 h1, (hbars.2 px py hp').2 h2, hc_dark px py hp'] at hlit
    exact absurd hlit (by simp)
  · rintro (h | h)
    · by_cases h1 : (∃ i ∈ List.range MAX_BALLS.toNat, (s.balls (i : Int)).active = true ∧
          px = (s.balls (i : Int)).x_pos ∧
          py = float_to_int ((s.balls (i : Int)).y_pos + 1 / 2))
      · exact (hpix px py hp').1 h1
      · rw [(hpix px py hp').2 h1]
        exact (hbars.2 px py hp').1 h
    · exact (hpix px py hp').1 h

theorem C19_board_pixels_witness :
    (8 : Int) ∣ OLED_HEIGHT ssd1306_128x64 ∧
    ∃ b' : Int → Nat,
      render_galton_board ssd1306_128x64 full_row_state (some (fun _ => 255)) = some b' ∧
      ∀ px py : Int, on_screen ssd1306_128x64 px py →
        (pixel ssd1306_128x64 (some b') px py = true ↔
          (px ≥ OLED_WIDTH ssd1306_128x64 - (full_row_state.stack_depth_at_y py : Int) ∨
            ∃ i : Nat, (i : Int) < MAX_BALLS ∧ (full_row_state.balls (i : Int)).active = true ∧
              (full_row_state.balls (i : Int)).x_pos = px ∧
              ⌊(full_row_state.balls (i : Int)).y_pos + 1 / 2⌋ = py)) :=
  ⟨by decide,
    C19_board_pixels ssd1306_128x64 full_row_state (fun _ => 255) (by decide) (by decide)
      (fun _ => (by decide : 255 < 256)) full_row_state_on_row⟩

/-! ## Text -/

theorem copy_glyph_spec (g : Geometry) (font : Int → Nat) (page x off : Int)
    (cols : List Nat) (b : Int → Nat) :
    (∀ i : Int, (∀ c ∈ cols, i ≠ page * OLED_WIDTH g + (x + (c : Int))) →
      copy_glyph g font page x off cols b i = b i) ∧
    (cols.Nodup → ∀ c ∈ cols,
      page * OLED_WIDTH g + (x + (c : Int)) < g.ssd1306_buffer_length →
      copy_glyph g font page x off cols b (page * OLED_WIDTH g + (x + (c : Int)))
        = font (off + (c : Int))) := by
  induction cols generalizing b with
  | nil =>
    exact ⟨fun _ _ => rfl, fun _ c hc => absurd hc (List.not_mem_nil c)⟩
  | cons a l ih =>
    have hstep : copy_glyph g font page x off (a :: l) b
        = copy_glyph g font page x off l
            (if page * OLED_WIDTH g + (x + (a : Int)) < g.ssd1306_buffer_length then
              Function.update b (page * OLED_WIDTH g + (x + (a : Int))) (font (off + (a : Int)))
            else b) := rfl
    rw [hstep]
    constructor
    · intro i hi
      rw [(ih _).1 i (fun c hc => hi c (List.mem_cons_of_mem _ hc))]
      have hne := hi a (List.mem_cons_self _ _)
      split_ifs
      · rw [Function.update_noteq hne]
      · rfl
    · intro hnd c hc hguard
      rw [List.nodup_cons] at hnd
      rcases List.mem_cons.mp hc with rfl | hcl
      · rw [(ih _).1 _ (fun c' hc' => by
          have : c' ≠ c := fun e => hnd.1 (e ▸ hc')
          omega)]
        rw [if_pos hguard, Function.update_same]
      · exact (ih _).2 hnd.2 c hcl hguard

theorem c_strlen_cons (c : Char) (str : List Char) :
    c_strlen (c :: str) = if c.toNat ≠ 0 then c_strlen str + 1 else 0 := by
  unfold c_strlen
  by_cases h : c.toNat ≠ 0
  · rw [if_pos h, List.takeWhile_cons_of_pos (by simpa using h)]
    rfl
  · rw [if_neg h, List.takeWhile_cons_of_neg (by simpa using h)]
    rfl

/-- The loop of `oled_draw_string` from column `cx` of an aligned row of the
display: the cells it writes and the bytes it keeps. -/
theorem draw_string_loop_spec (g : Geometry) (font : Int → Nat) (y : Int)
    (hg : page_geometry g) (hW : OLED_WIDTH g ≤ 32767)
    (hy0 : 0 ≤ y) (hy1 : y ≤ OLED_HEIGHT g - 8) (hy8 : (8 : Int) ∣ y)
    (str : List Char) (cx : Int) (hcx : 0 ≤ cx) (b : Int → Nat) :
    ∃ b' : Int → Nat, draw_string_loop g font y str cx (some b) = some b' ∧
      (∀ i : Int,
        ¬ (y / 8 * OLED_WIDTH g + cx ≤ i ∧
            i < y / 8 * OLED_WIDTH g + cx
              + 8 * ((min (c_strlen str) ((OLED_WIDTH g - cx) / 8).toNat : Nat) : Int)) →
        b' i = b i) ∧
      (∀ (j : Nat) (ch : Char), j < min (c_strlen str) ((OLED_WIDTH g - cx) / 8).toNat →
        str[j]? = some ch → ∀ c : Nat, c < 8 →
        b' (y / 8 * OLED_WIDTH g + cx + 8 * (j : Int) + (c : Int))
          = font (_oled_get_font_char_offset ch + (c : Int))) := by
  induction str generalizing cx b with
  | nil =>
    refine ⟨b, rfl, fun _ _ => rfl, fun j ch hj => ?_⟩
    simp [c_strlen] at hj
  | cons ch str ih =>
    by_cases hgo : ch.toNat ≠ 0 ∧ cx ≤ OLED_WIDTH g - 8
    · obtain ⟨hch, hfit⟩ := hgo
      have hd : y.tdiv 8 = y / 8 := Int.tdiv_eq_ediv hy0 (by omega)
      have hm : y.tmod 8 = 0 := Int.tmod_eq_zero_of_dvd hy8
      have hguards : ¬ (cx < 0 ∨ cx > OLED_WIDTH g - 8 ∨ y < 0 ∨ y > OLED_HEIGHT g - 8 ∨
          y.tmod 8 ≠ 0) := by
        rw [hm]; omega
      have hchar : oled_draw_char_page_aligned g font (some b) cx y ch
          = some (copy_glyph g font (y / 8) cx (_oled_get_font_char_offset ch)
              (List.range 8) b) := by
        show (if cx < 0 ∨ cx > OLED_WIDTH g - 8 ∨ y < 0 ∨ y > OLED_HEIGHT g - 8 ∨
          y.tmod 8 ≠ 0 then some b else _) = _
        rw [if_neg hguards, hd]
      have h16 : to_int16 (cx + 8) = cx + 8 := by
        unfold to_int16; omega
      have hstep : draw_string_loop g font y (ch :: str) cx (some b)
          = draw_string_loop g font y str (cx + 8)
              (some (copy_glyph g font (y / 8) cx (_oled_get_font_char_offset ch)
                (List.range 8) b)) := by
        show (if ch.toNat ≠ 0 ∧ cx ≤ OLED_WIDTH g - 8 then _ else _) = _
        rw [if_pos ⟨hch, hfit⟩, hchar, h16]
      obtain ⟨hkeep, hcell⟩ := copy_glyph_spec g font (y / 8) cx
        (_oled_get_font_char_offset ch) (List.range 8) b
      obtain ⟨b', hb', hout, hin⟩ := ih (cx + 8) (by omega)
        (copy_glyph g font (y / 8) cx (_oled_get_font_char_offset ch) (List.range 8) b)
      have hk : min (c_strlen (ch :: str)) ((OLED_WIDTH g - cx) / 8).toNat
          = min (c_strlen str) ((OLED_WIDTH g - (cx + 8)) / 8).toNat + 1 := by
        rw [c_strlen_cons, if_pos hch]
        omega
      rw [hstep, hk]
      refine ⟨b', hb', ?_, ?_⟩
      · intro i hi
        rw [hout i (by push_cast at hi ⊢; omega)]
        apply hkeep
        intro c hc
        rw [List.mem_range] at hc
        push_cast at hi
        omega
      · intro j ch' hj hget c hc
        cases j with
        | zero =>
          have hch' : ch' = ch := by
            simp at hget; exact hget.symm
          subst hch'
          have hidx : y / 8 * OLED_WIDTH g + cx + 8 * ((0 : Nat) : Int) + (c : Int)
              = y / 8 * OLED_WIDTH g + (cx + (c : Int)) := by push_cast; omega
          rw [hidx, hout _ (by omega)]
          apply hcell (List.nodup_range 8) c (List.mem_range.mpr hc)
          exact (byte_idx_in_buffer g (cx + (c : Int)) y (by omega) (by omega) hy0 (by omega)
            hg.1 hg.2).2
        | succ j =>
          have hget' : str[j]? = some ch' := by simpa using hget
          have := hin j ch' (by omega) hget' c hc
          have hidx : y / 8 * OLED_WIDTH g + cx + 8 * ((j + 1 : Nat) : Int) + (c : Int)
              = y / 8 * OLED_WIDTH g + (cx + 8) + 8 * (j : Int) + (c : Int) := by
            push_cast; omega
          rw [hidx]
          exact this
    · have hstop : draw_string_loop g font y (ch :: str) cx (some b) = some b := by
        show (if ch.toNat ≠ 0 ∧ cx ≤ OLED_WIDTH g - 8 then _ else _) = _
        rw [if_neg hgo]
      have hk : min (c_strlen (ch :: str)) ((OLED_WIDTH g - cx) / 8).toNat = 0 := by
        rw [c_strlen_cons]
        by_cases hch : ch.toNat ≠ 0
        · rw [if_pos hch]
          have : ¬ (cx ≤ OLED_WIDTH g - 8) := fun h => hgo ⟨hch, h⟩
          omega
        · rw [if_neg hch]
          omega
      rw [hstop, hk]
      exact ⟨b, rfl, fun _ _ => rfl, fun j ch' hj => absurd hj (by omega)⟩

/-- C17: on a page-organised display at most 32767 pixels wide, for a column
`x` in `[0, OLED_WIDTH - 8]` and an aligned row `y` in `[0, OLED_HEIGHT - 8]`,
`oled_draw_string` writes `k = min length ((OLED_WIDTH - x) / 8)` glyph cells:
cell `j < k` receives the 8 font bytes of the `j`-th character at the columns
`x + 8 j .. x + 8 j + 7` of page `y / 8`, every byte outside the columns
`x .. x + 8 k - 1` of that page is kept, and `x + 8 k ≤ OLED_WIDTH`. -/
theorem C17_draw_string_cells (g : Geometry) (font : Int → Nat) (b : Int → Nat)
    (x y : Int) (str : List Char)
    (hH : (8 : Int) ∣ OLED_HEIGHT g)
    (hlen : g.ssd1306_buffer_length = (OLED_WIDTH g * OLED_HEIGHT g).tdiv 8)
    (hW : OLED_WIDTH g ≤ 32767)
    (hx0 : 0 ≤ x) (hx1 : x ≤ OLED_WIDTH g - 8)
    (hy0 : 0 ≤ y) (hy1 : y ≤ OLED_HEIGHT g - 8) (hy8 : (8 : Int) ∣ y) :
    ∃ b' : Int → Nat, oled_draw_string g font (some b) x y str = some b' ∧
      x + 8 * ((min (c_strlen str) ((OLED_WIDTH g - x) / 8).toNat : Nat) : Int) ≤ OLED_WIDTH g ∧
      (∀ i : Int,
        ¬ (y / 8 * OLED_WIDTH g + x ≤ i ∧
            i < y / 8 * OLED_WIDTH g + x
              + 8 * ((min (c_strlen str) ((OLED_WIDTH g - x) / 8).toNat : Nat) : Int)) →
        b' i = b i) ∧
      (∀ (j : Nat) (ch : Char), j < min (c_strlen str) ((OLED_WIDTH g - x) / 8).toNat →
        str[j]? = some ch → ∀ c : Nat, c < 8 →
        b' (y / 8 * OLED_WIDTH g + x + 8 * (j : Int) + (c : Int))
          = font (_oled_get_font_char_offset ch + (c : Int))) := by
  have hm : y.tmod 8 = 0 := Int.tmod_eq_zero_of_dvd hy8
  have hcall : oled_draw_string g font (some b) x y str
      = draw_string_loop g font y str x (some b) := by
    unfold oled_draw_string
    rw [if_neg]
    rw [hm]
    simp
  obtain ⟨b', hb', hout, hin⟩ :=
    draw_string_loop_spec g font y ⟨hH, hlen⟩ hW hy0 hy1 hy8 str x hx0 b
  refine ⟨b', by rw [hcall, hb'], ?_, hout, hin⟩
  have : ((min (c_strlen str) ((OLED_WIDTH g - x) / 8).toNat : Nat) : Int)
      ≤ (OLED_WIDTH g - x) / 8 := by
    have h1 : min (c_strlen str) ((OLED_WIDTH g - x) / 8).toNat
        ≤ ((OLED_WIDTH g - x) / 8).toNat := Nat.min_le_right _ _
    omega
  omega

theorem C17_draw_string_cells_witness :
    (8 : Int) ∣ OLED_HEIGHT ssd1306_128x64 ∧ (8 : Int) ∣ (16 : Int) ∧
    ∃ b' : Int → Nat,
      oled_draw_string ssd1306_128x64 (fun i => i.toNat % 256) (some (fun _ => 0)) 100 16
        ['T', 'O', 'T', 'A', 'L', ' '] = some b' ∧
      (100 : Int) + 8 * ((min (c_strlen ['T', 'O', 'T', 'A', 'L', ' '])
        ((OLED_WIDTH ssd1306_128x64 - 100) / 8).toNat : Nat) : Int)
        ≤ OLED_WIDTH ssd1306_128x64 :=
  ⟨by decide, by decide,
    match C17_draw_string_cells ssd1306_128x64 (fun i => i.toNat % 256) (fun _ => 0) 100 16
      ['T', 'O', 'T', 'A', 'L', ' '] (by decide) (by decide) (by decide) (by decide)
      (by decide) (by decide) (by decide) (by decide) with
    | ⟨b', h1, h2, _⟩ => ⟨b', h1, h2⟩⟩

end Galton
